import Mathlib

/-! # pg_restrict: the statement check and the list parser

A shallow embedding of `src/pg_restrict.c` (the `PG_VERSION_NUM >= 130000`
branches of the preprocessor conditionals) and theorems about it.

Conventions of the embedding.

* A C string is the sequence of its characters before the terminating NUL.
  Names held by the policy engine (`char *` compared with `strcmp`) are Lean
  `String`s, and `strcmp(a, b) == 0` is `a = b`.  The text scanned by
  `split_string_into_list` is a `List Char`; a pointer into the buffer
  (`nextp`, `endp`) is the suffix of the text that starts at that position, so
  `*p == '\0'` is `p = []` and `p + 1` is the tail.  The separator handed to
  the parser is likewise a character other than NUL, as at every call.
* `ereport(ERROR, ...)` leaves the function by a non-local exit; a function
  that may raise returns `Except ErrorData Unit`.
* The file-level variables of the module are the fields of `Globals`, passed
  explicitly.
-/

namespace PgRestrict

/-! ## Data model -/

/-- Node tags of the utility statements the hook looks at (`nodeTag`). -/
inductive NodeTag
  | T_DropdbStmt
  | T_DropRoleStmt
  | T_AlterSystemStmt
  | T_CopyStmt
  | T_AlterTableStmt
  | T_Other (tag : Nat)
deriving DecidableEq, Repr

/-- The utility statement `pstmt->utilityStmt`, with the fields the hook reads:
`DropdbStmt.dbname`, the `rolename` of every `RoleSpec` of `DropRoleStmt.roles`
(in list order) and `CopyStmt.is_program`.  Every other statement kind is
`Other`, told apart by its tag only.  A `RoleSpec` is taken to carry a name
(`ROLESPEC_CSTRING`); one that names no role (`CURRENT_USER`, `SESSION_USER`)
has a null `rolename` and is outside this model. -/
inductive Node
  | DropdbStmt (dbname : String)
  | DropRoleStmt (roles : List String)
  | AlterSystemStmt
  | CopyStmt (is_program : Bool)
  | AlterTableStmt
  | Other (tag : Nat)
deriving DecidableEq, Repr

/-- The tag of a node. -/
def nodeTag : Node → NodeTag
  | .DropdbStmt _ => .T_DropdbStmt
  | .DropRoleStmt _ => .T_DropRoleStmt
  | .AlterSystemStmt => .T_AlterSystemStmt
  | .CopyStmt _ => .T_CopyStmt
  | .AlterTableStmt => .T_AlterTableStmt
  | .Other tag => .T_Other tag

/-- The test `IsA(nodeptr, _type_)`. -/
def IsA (nodeptr : Node) (type : NodeTag) : Bool :=
  decide (nodeTag nodeptr = type)

/-- Field `stmt->dbname` after the cast `(DropdbStmt *) pst`. -/
def Node.dbname : Node → String
  | .DropdbStmt dbname => dbname
  | _ => ""

/-- Field `stmt->roles` after the cast `(DropRoleStmt *) pst`, each cell read
through `rolspec->rolename`. -/
def Node.roles : Node → List String
  | .DropRoleStmt roles => roles
  | _ => []

/-- Field `stmt->is_program` after the cast `(CopyStmt *) pst`. -/
def Node.is_program : Node → Bool
  | .CopyStmt is_program => is_program
  | _ => false

/-- The SQLSTATE of `ERRCODE_INSUFFICIENT_PRIVILEGE` (insufficient_privilege). -/
def ERRCODE_INSUFFICIENT_PRIVILEGE : String := "42501"

/-- What `ereport(ERROR, (errcode(...), errmsg(...)))` raises. -/
structure ErrorData where
  sqlerrcode : String
  message : String
deriving DecidableEq, Repr

deriving instance DecidableEq for Except

/-- The file-level variables of the module: the three boolean settings, the
three lists built by the check callbacks, and the saved hook (`none` is the
null pointer, `some h` the hook `h` that was installed before this module). -/
structure Globals where
  alter_system : Bool
  alter_table : Bool
  copy_program : Bool
  master_roles : List String
  nonremovable_databases : List String
  nonremovable_roles : List String
  prev_ProcessUtility : Option Nat
deriving DecidableEq, Repr

/-- `PGR_DEFAULT_MASTER_ROLES`. -/
def PGR_DEFAULT_MASTER_ROLES : String := "postgres"

/-- `PGR_DEFAULT_NONREMOVABLE_DBS`. -/
def PGR_DEFAULT_NONREMOVABLE_DBS : String := "postgres, template1, template0"

/-- `PGR_DEFAULT_NONREMOVABLE_ROLES`. -/
def PGR_DEFAULT_NONREMOVABLE_ROLES : String := "postgres"

/-- The variables as their initialisers leave them when the library is
loaded: the lists are `NIL`, the booleans are zero-initialised and no hook is
saved. -/
def initial_globals : Globals :=
  { alter_system := false
    alter_table := false
    copy_program := false
    master_roles := []
    nonremovable_databases := []
    nonremovable_roles := []
    prev_ProcessUtility := none }

/-! ## The statement check of `pgr_ProcessUtility` (lines 194-347) -/

/-- The scan that every branch runs over `master_roles`:
`is_master = false; foreach(...) if (strcmp(lfirst(lc), current_rolename) == 0)
{ is_master = true; break; }`. -/
def is_master : List String → String → Bool
  | [], _ => false
  | r :: rest, current_rolename =>
    if r = current_rolename then true else is_master rest current_rolename

/-- The loop `foreach(lc, nonremovable_databases)` of the `DropdbStmt` branch
(lines 202-223), on the cells still to visit. -/
def foreach_nonremovable_databases (master_roles : List String)
    (current_rolename dbname : String) : List String → Except ErrorData Unit
  | [] => .ok ()
  | lc :: rest =>
    if lc = dbname then
      if is_master master_roles current_rolename = false then
        .error
          { sqlerrcode := ERRCODE_INSUFFICIENT_PRIVILEGE
            message := "cannot drop database \"" ++ dbname ++ "\"" }
      else foreach_nonremovable_databases master_roles current_rolename dbname rest
    else foreach_nonremovable_databases master_roles current_rolename dbname rest

/-- The inner loop `foreach(tc, nonremovable_roles)` of the `DropRoleStmt`
branch (lines 243-264) for one `dropped_role`. -/
def foreach_nonremovable_roles (master_roles : List String)
    (current_rolename dropped_role : String) : List String → Except ErrorData Unit
  | [] => .ok ()
  | tc :: rest =>
    if tc = dropped_role then
      if is_master master_roles current_rolename = false then
        .error
          { sqlerrcode := ERRCODE_INSUFFICIENT_PRIVILEGE
            message := "cannot drop role \"" ++ dropped_role ++ "\"" }
      else foreach_nonremovable_roles master_roles current_rolename dropped_role rest
    else foreach_nonremovable_roles master_roles current_rolename dropped_role rest

/-- The outer loop `foreach(lc, stmt->roles)` of the `DropRoleStmt` branch
(lines 230-265): the inner loop runs for each role of the statement in order,
and the first error raised ends the function. -/
def foreach_roles (master_roles nonremovable_roles : List String)
    (current_rolename : String) : List String → Except ErrorData Unit
  | [] => .ok ()
  | dropped_role :: rest =>
    match foreach_nonremovable_roles master_roles current_rolename dropped_role
        nonremovable_roles with
    | .error e => .error e
    | .ok () => foreach_roles master_roles nonremovable_roles current_rolename rest

/-- The `if ... else if ...` chain of `pgr_ProcessUtility` (lines 194-347):
the error it raises, or `ok` when control reaches the fallback at line 348. -/
def pgr_check (g : Globals) (pst : Node) (current_rolename : String) :
    Except ErrorData Unit :=
  if IsA pst .T_DropdbStmt then
    foreach_nonremovable_databases g.master_roles current_rolename pst.dbname
      g.nonremovable_databases
  else if IsA pst .T_DropRoleStmt then
    foreach_roles g.master_roles g.nonremovable_roles current_rolename pst.roles
  else if IsA pst .T_AlterSystemStmt && g.alter_system then
    if is_master g.master_roles current_rolename = false then
      .error
        { sqlerrcode := ERRCODE_INSUFFICIENT_PRIVILEGE
          message := "cannot execute ALTER SYSTEM" }
    else .ok ()
  else if IsA pst .T_CopyStmt && g.copy_program then
    if pst.is_program then
      if is_master g.master_roles current_rolename = false then
        .error
          { sqlerrcode := ERRCODE_INSUFFICIENT_PRIVILEGE
            message := "cannot execute COPY ... PROGRAM" }
      else .ok ()
    else .ok ()
  else if IsA pst .T_AlterTableStmt && g.alter_table then
    if is_master g.master_roles current_rolename = false then
      .error
        { sqlerrcode := ERRCODE_INSUFFICIENT_PRIVILEGE
          message := "cannot execute ALTER TABLE" }
    else .ok ()
  else .ok ()

/-! ## The hook `pgr_ProcessUtility` as a whole (lines 167-380) -/

/-- The arguments the hook receives and hands on. -/
structure UtilityArgs where
  pstmt : Node
  queryString : String
  context : Nat
  params : Nat
  queryEnv : Nat
  dest : Nat
  qc : Nat
deriving DecidableEq, Repr

/-- The two functions the fallback at lines 352-360 can call: the saved hook
(which one it is) or the in-core `standard_ProcessUtility`. -/
inductive Callee
  | prev_ProcessUtility (hook : Nat)
  | standard_ProcessUtility
deriving DecidableEq, Repr

/-- One call made by the hook: the function called and the arguments passed. -/
structure Invocation where
  callee : Callee
  args : UtilityArgs
deriving DecidableEq, Repr

/-- What one run of the hook did: the error it raised, if any, and the calls it
made to a next handler, oldest first. -/
structure HookOutcome where
  error : Option ErrorData
  calls : List Invocation
deriving DecidableEq, Repr

/-- The hook.  `current_rolename` is the value of
`GetUserNameFromId(GetUserId(), false)`; `pst` is `pstmt->utilityStmt`.  An
error raised by the check leaves the function before the fallback; otherwise
the fallback calls `prev_ProcessUtility` when it is non-null and
`standard_ProcessUtility` when it is null, with the arguments received. -/
def pgr_ProcessUtility (g : Globals) (current_rolename : String) (args : UtilityArgs) :
    HookOutcome :=
  match pgr_check g args.pstmt current_rolename with
  | .error e => { error := some e, calls := [] }
  | .ok () =>
    match g.prev_ProcessUtility with
    | some hook => { error := none, calls := [⟨.prev_ProcessUtility hook, args⟩] }
    | none => { error := none, calls := [⟨.standard_ProcessUtility, args⟩] }

/-! ## The list parser `split_string_into_list` (lines 514-593) -/

/-- PostgreSQL's `scanner_isspace` (scansup.c): space, tab, newline, carriage
return and form feed. -/
def scanner_isspace (ch : Char) : Bool :=
  ch == ' ' || ch == '\t' || ch == '\n' || ch == '\r' || ch == '\x0c'

/-- The loop `while (scanner_isspace(*nextp)) nextp++;`: the position reached. -/
def skip_whitespace : List Char → List Char
  | [] => []
  | c :: cs => if scanner_isspace c then skip_whitespace cs else c :: cs

/-- The quoted-name loop (lines 539-551), started on the text after the opening
quote.  `strchr(nextp + 1, '"')` walks to the next quote and fails (`none`,
"mismatched quotes") when the text ends first.  If the character after that
quote is a quote too, `memmove` drops one of the pair, the other stays in the
name and the search resumes after it; otherwise the quote found ends the name.
The result is the name between `curname` and `endp` and the position
`endp + 1`. -/
def collapse_quotes : List Char → Option (List Char × List Char)
  | [] => none
  | c :: cs =>
    if c = '"' then
      match cs with
      | [] => some ([], [])
      | d :: cs' =>
        if d = '"' then
          match collapse_quotes cs' with
          | none => none
          | some (name, after) => some ('"' :: name, after)
        else some ([], d :: cs')
    else
      match collapse_quotes cs with
      | none => none
      | some (name, after) => some (c :: name, after)

/-- The unquoted-name loop (lines 557-559):
`while (*nextp && *nextp != separator && !scanner_isspace(*nextp)) nextp++;`.
The result is the text skipped (from `curname` to `endp`) and the position
reached. -/
def scan_unquoted (separator : Char) : List Char → List Char × List Char
  | [] => ([], [])
  | c :: cs =>
    if c ≠ separator ∧ scanner_isspace c = false then
      (c :: (scan_unquoted separator cs).1, (scan_unquoted separator cs).2)
    else ([], c :: cs)

/-- Lines 535-563: isolate one name at `nextp`.  The result is the name and the
position after it, or `none` where the source returns false (mismatched quotes,
empty unquoted name). -/
def next_name (separator : Char) (nextp : List Char) : Option (List Char × List Char) :=
  match nextp with
  | '"' :: cs => collapse_quotes cs
  | _ =>
    if (scan_unquoted separator nextp).1 = [] then none
    else some (scan_unquoted separator nextp)

/-- `lappend(list, datum)`. -/
def lappend {α : Type} (list : List α) (datum : α) : List α :=
  list ++ [datum]

/-- The `do ... while (!done)` loop (lines 530-590) with `nextp` at the start
of a name and `namelist` as built so far.  Every pass moves `nextp` forward by
at least one character, so `fuel` greater than the length of the text at
`nextp` is never used up (`split_loop_fuel` below); `none` is `return false`.
The separator is taken to be a character other than NUL, as at every call. -/
def split_loop (separator : Char) :
    Nat → List Char → List (List Char) → Option (List (List Char))
  | 0, _, _ => none
  | fuel + 1, nextp, namelist =>
    match next_name separator nextp with
    | none => none
    | some (curname, after) =>
      match skip_whitespace after with
      | [] => some (lappend namelist curname)
      | c :: cs =>
        if c = separator then
          split_loop separator fuel (skip_whitespace cs) (lappend namelist curname)
        else none

/-- The function `split_string_into_list(rawstring, separator, &namelist)`:
`some namelist` when it returns true, `none` when it returns false. -/
def split_string_into_list (rawstring : List Char) (separator : Char) :
    Option (List (List Char)) :=
  match skip_whitespace rawstring with
  | [] => some []
  | nextp => split_loop separator (nextp.length + 1) nextp []

/-- How a run of the parser's loop under a bound on its passes ends: the bound
was used up before the loop left, or the function returned (`returned none`
is `return false`, `returned (some namelist)` is `return true`). -/
inductive LoopEnd
  | fuel_used_up
  | returned (result : Option (List (List Char)))
deriving DecidableEq, Repr

/-- The loop of `split_loop` once more, pass for pass, with the two meanings of
`none` told apart: `fuel` bounds the number of passes, `fuel_used_up` is the
bound reached with the loop still running, and every `return` of the source
is a `returned`. -/
def split_loop_run (separator : Char) :
    Nat → List Char → List (List Char) → LoopEnd
  | 0, _, _ => .fuel_used_up
  | fuel + 1, nextp, namelist =>
    match next_name separator nextp with
    | none => .returned none
    | some (curname, after) =>
      match skip_whitespace after with
      | [] => .returned (some (lappend namelist curname))
      | c :: cs =>
        if c = separator then
          split_loop_run separator fuel (skip_whitespace cs) (lappend namelist curname)
        else .returned none

/-- The function `split_string_into_list` with its loop run as
`split_loop_run`, under the same bound as in `split_string_into_list`. -/
def split_string_into_list_run (rawstring : List Char) (separator : Char) : LoopEnd :=
  match skip_whitespace rawstring with
  | [] => .returned (some [])
  | nextp => split_loop_run separator (nextp.length + 1) nextp []

/-! ## The check callbacks of the three string settings (lines 382-506) -/

/-- What a check callback hands back: its return value, the detail message set
with `GUC_check_errdetail`, and the file-level variables as it leaves them. -/
structure CheckResult where
  result : Bool
  errdetail : Option String
  globals : Globals
deriving DecidableEq, Repr

/-- `pstrdup` of a name isolated by the parser. -/
def pstrdup (t : List Char) : String :=
  String.mk t

/-- The loop `foreach(lc, ltmp) { t = pstrdup(lfirst(lc)); new = lappend(new, t); }`. -/
def foreach_ltmp (newlist : List String) : List (List Char) → List String
  | [] => newlist
  | lc :: rest => foreach_ltmp (lappend newlist (pstrdup lc)) rest

/-- Callback `check_nonremovable_databases(newval, extra, source)`. -/
def check_nonremovable_databases (newval : String) (g : Globals) : CheckResult :=
  match split_string_into_list newval.toList ',' with
  | none =>
    { result := false, errdetail := some "List syntax is invalid.", globals := g }
  | some ltmp =>
    { result := true, errdetail := none
      globals := { g with nonremovable_databases := foreach_ltmp [] ltmp } }

/-- Callback `check_nonremovable_roles(newval, extra, source)`. -/
def check_nonremovable_roles (newval : String) (g : Globals) : CheckResult :=
  match split_string_into_list newval.toList ',' with
  | none =>
    { result := false, errdetail := some "List syntax is invalid.", globals := g }
  | some ltmp =>
    { result := true, errdetail := none
      globals := { g with nonremovable_roles := foreach_ltmp [] ltmp } }

/-- Callback `check_master_roles(newval, extra, source)`. -/
def check_master_roles (newval : String) (g : Globals) : CheckResult :=
  match split_string_into_list newval.toList ',' with
  | none =>
    { result := false, errdetail := some "List syntax is invalid.", globals := g }
  | some ltmp =>
    { result := true, errdetail := none
      globals := { g with master_roles := foreach_ltmp [] ltmp } }

/-- Callback `assign_master_roles(newval, extra)`: the body is empty. -/
def assign_master_roles (_newval : String) (g : Globals) : Globals :=
  g

/-- Callback `assign_nonremovable_databases(newval, extra)`: the body is empty. -/
def assign_nonremovable_databases (_newval : String) (g : Globals) : Globals :=
  g

/-- Callback `assign_nonremovable_roles(newval, extra)`: the body is empty. -/
def assign_nonremovable_roles (_newval : String) (g : Globals) : Globals :=
  g

/-! ## Shapes of parser input that the claims speak of

These definitions describe texts handed to the parser; they are not part of
the source. -/

/-- A string of whitespace characters only (it may be empty). -/
def IsWhitespace (w : List Char) : Prop :=
  ∀ c ∈ w, scanner_isspace c = true

/-- A plain token: non-empty, with no separator, quote or whitespace
character. -/
def IsPlain (separator : Char) (t : List Char) : Prop :=
  t ≠ [] ∧ ∀ c ∈ t, c ≠ separator ∧ c ≠ '"' ∧ scanner_isspace c = false

instance (w : List Char) : Decidable (IsWhitespace w) := by
  unfold IsWhitespace
  infer_instance

instance (separator : Char) (t : List Char) : Decidable (IsPlain separator t) := by
  unfold IsPlain
  infer_instance

/-- A string with every quote character written twice. -/
def double_quotes : List Char → List Char
  | [] => []
  | c :: cs =>
    if c = '"' then '"' :: '"' :: double_quotes cs else c :: double_quotes cs

/-- A string written as a quoted token: a quote, the string with every quote
doubled, a quote. -/
def quoted (s : List Char) : List Char :=
  '"' :: (double_quotes s ++ ['"'])

/-- A token with the whitespace written before and after it. -/
structure Padded where
  before : List Char
  tok : List Char
  after : List Char
deriving DecidableEq, Repr

/-- The text of a padded token. -/
def Padded.text (p : Padded) : List Char :=
  p.before ++ (p.tok ++ p.after)

/-- Padded tokens joined with the separator. -/
def padded_join (separator : Char) (items : List Padded) : List Char :=
  List.intercalate [separator] (items.map Padded.text)

/-- A token as written in the text: a plain unquoted token, or a closed quoted
token that stands for the string `s`. -/
inductive Written
  | plain (t : List Char)
  | closed (s : List Char)
deriving DecidableEq, Repr

/-- The characters of a written token. -/
def Written.text : Written → List Char
  | .plain t => t
  | .closed s => quoted s

/-- The name a written token stands for. -/
def Written.name : Written → List Char
  | .plain t => t
  | .closed s => s

/-- A written token is well formed when, if unquoted, it is a plain token. -/
def Written.WellFormed (separator : Char) : Written → Prop
  | .plain t => IsPlain separator t
  | .closed _ => True

instance (separator : Char) (tok : Written) : Decidable (tok.WellFormed separator) := by
  cases tok <;> (unfold Written.WellFormed; infer_instance)

/-- A token followed by a separator: the token, whitespace, the separator,
whitespace. -/
structure Segment where
  tok : Written
  gap : List Char
  lead : List Char
deriving DecidableEq, Repr

/-- The text of a segment. -/
def Segment.text (separator : Char) (seg : Segment) : List Char :=
  seg.tok.text ++ (seg.gap ++ separator :: seg.lead)

/-- A segment is well formed when its token is and both gaps are whitespace. -/
def Segment.WellFormed (separator : Char) (seg : Segment) : Prop :=
  seg.tok.WellFormed separator ∧ IsWhitespace seg.gap ∧ IsWhitespace seg.lead

instance (separator : Char) (seg : Segment) : Decidable (seg.WellFormed separator) := by
  unfold Segment.WellFormed
  infer_instance

/-- The text of a run of segments. -/
def segments_text (separator : Char) : List Segment → List Char
  | [] => []
  | seg :: rest => seg.text separator ++ segments_text separator rest

/-! ## Helper lemmas -/

theorem is_master_eq_true_iff (master_roles : List String) (current_rolename : String) :
    is_master master_roles current_rolename = true ↔ current_rolename ∈ master_roles := by
  induction master_roles with
  | nil => simp [is_master]
  | cons r rest ih =>
    unfold is_master
    by_cases h : r = current_rolename
    · simp [h]
    · have h2 : ¬ current_rolename = r := fun e => h e.symm
      simp [h, h2, ih]

theorem is_master_eq_false_iff (master_roles : List String) (current_rolename : String) :
    is_master master_roles current_rolename = false ↔ current_rolename ∉ master_roles := by
  rw [← is_master_eq_true_iff]
  cases is_master master_roles current_rolename <;> simp

theorem foreach_nonremovable_databases_eq (master_roles : List String)
    (current_rolename dbname : String) (dbs : List String) :
    foreach_nonremovable_databases master_roles current_rolename dbname dbs =
      if dbname ∈ dbs ∧ current_rolename ∉ master_roles then
        .error
          { sqlerrcode := ERRCODE_INSUFFICIENT_PRIVILEGE
            message := "cannot drop database \"" ++ dbname ++ "\"" }
      else .ok () := by
  induction dbs with
  | nil => simp [foreach_nonremovable_databases]
  | cons lc rest ih =>
    unfold foreach_nonremovable_databases
    rw [ih]
    simp only [is_master_eq_false_iff]
    by_cases h1 : lc = dbname
    · by_cases h2 : current_rolename ∈ master_roles <;> simp [h1, h2]
    · have h3 : ¬ dbname = lc := fun e => h1 e.symm
      simp [h1, h3]

theorem foreach_nonremovable_roles_eq (master_roles : List String)
    (current_rolename dropped_role : String) (nrs : List String) :
    foreach_nonremovable_roles master_roles current_rolename dropped_role nrs =
      if dropped_role ∈ nrs ∧ current_rolename ∉ master_roles then
        .error
          { sqlerrcode := ERRCODE_INSUFFICIENT_PRIVILEGE
            message := "cannot drop role \"" ++ dropped_role ++ "\"" }
      else .ok () := by
  induction nrs with
  | nil => simp [foreach_nonremovable_roles]
  | cons tc rest ih =>
    unfold foreach_nonremovable_roles
    rw [ih]
    simp only [is_master_eq_false_iff]
    by_cases h1 : tc = dropped_role
    · by_cases h2 : current_rolename ∈ master_roles <;> simp [h1, h2]
    · have h3 : ¬ dropped_role = tc := fun e => h1 e.symm
      simp [h1, h3]

theorem foreach_roles_eq (master_roles nonremovable_roles : List String)
    (current_rolename : String) (roles : List String) :
    foreach_roles master_roles nonremovable_roles current_rolename roles =
      match roles.find? (fun e => decide (e ∈ nonremovable_roles)) with
      | some e =>
        if current_rolename ∈ master_roles then .ok ()
        else
          .error
            { sqlerrcode := ERRCODE_INSUFFICIENT_PRIVILEGE
              message := "cannot drop role \"" ++ e ++ "\"" }
      | none => .ok () := by
  induction roles with
  | nil => simp [foreach_roles]
  | cons dropped_role rest ih =>
    unfold foreach_roles
    rw [foreach_nonremovable_roles_eq, ih]
    by_cases h1 : dropped_role ∈ nonremovable_roles
    · by_cases h2 : current_rolename ∈ master_roles
      · simp only [h1, h2, List.find?_cons, decide_True, not_true_eq_false, and_false,
          if_false, if_true]
        cases List.find? (fun e => decide (e ∈ nonremovable_roles)) rest <;> rfl
      · simp [h1, h2, List.find?_cons]
    · simp [h1, List.find?_cons]

theorem skip_whitespace_length (s : List Char) :
    (skip_whitespace s).length ≤ s.length := by
  induction s with
  | nil => simp [skip_whitespace]
  | cons c cs ih =>
    unfold skip_whitespace
    split
    · simp only [List.length_cons]; omega
    · exact Nat.le_refl _

theorem collapse_quotes_length_aux (n : Nat) :
    ∀ s : List Char, s.length ≤ n → ∀ name after : List Char,
      collapse_quotes s = some (name, after) → after.length < s.length := by
  induction n with
  | zero =>
    intro s hs name after h
    have : s = [] := List.length_eq_zero.mp (Nat.le_zero.mp hs)
    subst this
    simp [collapse_quotes] at h
  | succ n ih =>
    intro s hs name after h
    cases s with
    | nil => simp [collapse_quotes] at h
    | cons c cs =>
      simp only [List.length_cons] at hs
      unfold collapse_quotes at h
      by_cases hc : c = '"'
      · simp only [hc, if_true] at h
        cases cs with
        | nil =>
          simp only [Option.some.injEq, Prod.mk.injEq] at h
          obtain ⟨-, rfl⟩ := h
          simp
        | cons d cs' =>
          simp only [List.length_cons] at hs
          by_cases hd : d = '"'
          · simp only [hd, if_true] at h
            cases hq : collapse_quotes cs' with
            | none => simp [hq] at h
            | some p =>
              obtain ⟨n1, a1⟩ := p
              simp only [hq, Option.some.injEq, Prod.mk.injEq] at h
              obtain ⟨-, rfl⟩ := h
              have := ih cs' (by omega) _ _ hq
              simp only [List.length_cons]; omega
          · simp only [hd, if_false, Option.some.injEq, Prod.mk.injEq] at h
            obtain ⟨-, rfl⟩ := h
            simp
      · simp only [hc, if_false] at h
        cases hq : collapse_quotes cs with
        | none => simp [hq] at h
        | some p =>
          obtain ⟨n1, a1⟩ := p
          simp only [hq, Option.some.injEq, Prod.mk.injEq] at h
          obtain ⟨-, rfl⟩ := h
          have := ih cs (by omega) _ _ hq
          simp only [List.length_cons]; omega

theorem collapse_quotes_length (s name after : List Char)
    (h : collapse_quotes s = some (name, after)) : after.length < s.length :=
  collapse_quotes_length_aux s.length s (Nat.le_refl _) name after h

theorem scan_unquoted_length (separator : Char) (s : List Char) :
    (scan_unquoted separator s).1.length + (scan_unquoted separator s).2.length =
      s.length := by
  induction s with
  | nil => simp [scan_unquoted]
  | cons c cs ih =>
    unfold scan_unquoted
    split
    · simp only [List.length_cons]; omega
    · simp

theorem next_name_length (separator : Char) (nextp name after : List Char)
    (h : next_name separator nextp = some (name, after)) :
    after.length < nextp.length := by
  unfold next_name at h
  split at h
  · have := collapse_quotes_length _ _ _ h
    simp only [List.length_cons]; omega
  · split at h
    · cases h
    · rename_i hne
      have hlen := scan_unquoted_length separator nextp
      simp only [Option.some.injEq] at h
      rw [h] at hlen hne
      have : name.length ≠ 0 := fun e => hne (List.length_eq_zero.mp e)
      simp only at hlen this
      omega

/-- The fuel of `split_loop` is never used up: any two amounts greater than
the length of the text at `nextp` give the same result. -/
theorem split_loop_fuel (separator : Char) (fuel1 fuel2 : Nat) (nextp : List Char)
    (namelist : List (List Char)) (h1 : nextp.length < fuel1)
    (h2 : nextp.length < fuel2) :
    split_loop separator fuel1 nextp namelist =
      split_loop separator fuel2 nextp namelist := by
  induction fuel1 generalizing fuel2 nextp namelist with
  | zero => omega
  | succ f1 ih =>
    cases fuel2 with
    | zero => omega
    | succ f2 =>
      unfold split_loop
      cases hn : next_name separator nextp with
      | none => rfl
      | some p =>
        obtain ⟨curname, after⟩ := p
        have hlt := next_name_length _ _ _ _ hn
        simp only
        cases hs : skip_whitespace after with
        | nil => rfl
        | cons c cs =>
          have h3 := skip_whitespace_length after
          have h4 := skip_whitespace_length cs
          rw [hs] at h3
          simp only [List.length_cons] at h3
          simp only
          by_cases hc : c = separator
          · simp only [hc, if_true]
            exact ih f2 _ _ (by omega) (by omega)
          · simp only [hc, if_false]

theorem foreach_ltmp_eq (newlist : List String) (ltmp : List (List Char)) :
    foreach_ltmp newlist ltmp = newlist ++ ltmp.map pstrdup := by
  induction ltmp generalizing newlist with
  | nil => simp [foreach_ltmp]
  | cons lc rest ih => simp [foreach_ltmp, ih, lappend]

/-! ## The claims -/

/-- C1. The check of `DropdbStmt n` as `r` raises exactly when `n` is in
`nonremovable_databases` and `r` is not in `master_roles`; the error is
insufficient privilege with message `cannot drop database "n"`; otherwise it
raises nothing.  The three booleans, `nonremovable_roles` and the saved hook
have no influence on the result. -/
theorem C1_drop_database_decision (g : Globals) (n r : String) :
    (pgr_check g (.DropdbStmt n) r =
      if n ∈ g.nonremovable_databases ∧ r ∉ g.master_roles then
        .error
          { sqlerrcode := ERRCODE_INSUFFICIENT_PRIVILEGE
            message := "cannot drop database \"" ++ n ++ "\"" }
      else .ok ()) ∧
    ∀ (a t c : Bool) (nr : List String) (prev : Option Nat),
      pgr_check
          { g with
            alter_system := a, alter_table := t, copy_program := c
            nonremovable_roles := nr, prev_ProcessUtility := prev }
          (.DropdbStmt n) r =
        pgr_check g (.DropdbStmt n) r := by
  constructor
  · simp [pgr_check, IsA, nodeTag, Node.dbname, foreach_nonremovable_databases_eq]
  · intro a t c nr prev
    simp [pgr_check, IsA, nodeTag, Node.dbname]

/-- C2. The check of `DropRoleStmt names` as `r` raises exactly when some
entry of `names` is in `nonremovable_roles` and `r` is not in `master_roles`;
the error then is insufficient privilege with message `cannot drop role "e"`
for the first entry `e` of `names` that is in `nonremovable_roles`.  With
`nonremovable_roles = ["bob"]` and `master_roles = []`, dropping
`["alice", "bob"]` is refused with `cannot drop role "bob"` for every
requester and any value of the other variables. -/
theorem C2_drop_role_decision (g : Globals) (names : List String) (r : String) :
    ((∃ e, pgr_check g (.DropRoleStmt names) r = .error e) ↔
      ((∃ n, n ∈ names ∧ n ∈ g.nonremovable_roles) ∧ r ∉ g.master_roles)) ∧
    (pgr_check g (.DropRoleStmt names) r =
      match names.find? (fun e => decide (e ∈ g.nonremovable_roles)) with
      | some e =>
        if r ∈ g.master_roles then .ok ()
        else
          .error
            { sqlerrcode := ERRCODE_INSUFFICIENT_PRIVILEGE
              message := "cannot drop role \"" ++ e ++ "\"" }
      | none => .ok ()) ∧
    (pgr_check { g with master_roles := [], nonremovable_roles := ["bob"] }
        (.DropRoleStmt ["alice", "bob"]) r =
      .error
        { sqlerrcode := ERRCODE_INSUFFICIENT_PRIVILEGE
          message := "cannot drop role \"bob\"" }) := by
  have key : ∀ g' : Globals, ∀ names' : List String,
      pgr_check g' (.DropRoleStmt names') r =
        match names'.find? (fun e => decide (e ∈ g'.nonremovable_roles)) with
        | some e =>
          if r ∈ g'.master_roles then .ok ()
          else
            .error
              { sqlerrcode := ERRCODE_INSUFFICIENT_PRIVILEGE
                message := "cannot drop role \"" ++ e ++ "\"" }
        | none => .ok () := by
    intro g' names'
    simp [pgr_check, IsA, nodeTag, Node.roles, foreach_roles_eq]
  refine ⟨?_, key g names, ?_⟩
  · rw [key g names]
    cases hf : names.find? (fun e => decide (e ∈ g.nonremovable_roles)) with
    | none =>
      have hnone := List.find?_eq_none.mp hf
      constructor
      · intro ⟨e, he⟩
        cases he
      · intro ⟨⟨n, hn1, hn2⟩, _⟩
        exact absurd (by simpa using hn2) (hnone n hn1)
    | some e =>
      have hmem : e ∈ names := List.mem_of_find?_eq_some hf
      have hprop : e ∈ g.nonremovable_roles := by
        simpa using List.find?_some hf
      by_cases hr : r ∈ g.master_roles
      · simp [hr]
      · simp only [hr, if_false, not_false_eq_true, and_true]
        exact ⟨fun _ => ⟨e, hmem, hprop⟩, fun _ => ⟨_, rfl⟩⟩
  · rw [key]
    simp [List.find?_cons]

/-- C3. Privilege bypass: when the requester is in `master_roles`, the check
of every statement (of any kind, with any target) raises nothing, whatever
the protected lists and the booleans are. -/
theorem C3_privilege_bypass (g : Globals) (stmt : Node) (r : String)
    (h : r ∈ g.master_roles) : pgr_check g stmt r = .ok () := by
  have hm : is_master g.master_roles r = true := (is_master_eq_true_iff _ _).mpr h
  cases stmt with
  | DropdbStmt dbname =>
    simp [pgr_check, IsA, nodeTag, foreach_nonremovable_databases_eq, h]
  | DropRoleStmt roles =>
    simp only [pgr_check, IsA, nodeTag, Node.roles, foreach_roles_eq]
    simp only [h, if_true]
    cases List.find? (fun e => decide (e ∈ g.nonremovable_roles)) roles <;> simp
  | AlterSystemStmt => simp [pgr_check, IsA, nodeTag, hm]
  | CopyStmt is_program => simp [pgr_check, IsA, nodeTag, hm]
  | AlterTableStmt => simp [pgr_check, IsA, nodeTag, hm]
  | Other tag => simp [pgr_check, IsA, nodeTag]

/-- Witness of C3: "postgres" is a master role and drops the protected
database "postgres" while all three booleans are on. -/
theorem C3_privilege_bypass_witness :
    pgr_check
        { alter_system := true, alter_table := true, copy_program := true
          master_roles := ["admin", "postgres"]
          nonremovable_databases := ["postgres", "template1"]
          nonremovable_roles := ["postgres"]
          prev_ProcessUtility := none }
        (.DropdbStmt "postgres") "postgres" = .ok () :=
  C3_privilege_bypass _ _ _ (by decide)

/-- C4. The check of `AlterSystemStmt` as `r` raises (insufficient privilege,
`cannot execute ALTER SYSTEM`) exactly when `alter_system` is on and `r` is
not in `master_roles`, whatever the other variables are.  With the setting on
and `master_roles = ["postgres"]`, "alice" is refused and "postgres" is not. -/
theorem C4_alter_system_decision (g : Globals) (r : String) :
    (pgr_check g .AlterSystemStmt r =
      if g.alter_system = true ∧ r ∉ g.master_roles then
        .error
          { sqlerrcode := ERRCODE_INSUFFICIENT_PRIVILEGE
            message := "cannot execute ALTER SYSTEM" }
      else .ok ()) ∧
    (pgr_check { g with alter_system := true, master_roles := ["postgres"] }
        .AlterSystemStmt "alice" =
      .error
        { sqlerrcode := ERRCODE_INSUFFICIENT_PRIVILEGE
          message := "cannot execute ALTER SYSTEM" }) ∧
    (pgr_check { g with alter_system := true, master_roles := ["postgres"] }
        .AlterSystemStmt "postgres" = .ok ()) := by
  have key : ∀ (g' : Globals) (r' : String),
      pgr_check g' .AlterSystemStmt r' =
        if g'.alter_system = true ∧ r' ∉ g'.master_roles then
          .error
            { sqlerrcode := ERRCODE_INSUFFICIENT_PRIVILEGE
              message := "cannot execute ALTER SYSTEM" }
        else .ok () := by
    intro g' r'
    simp only [pgr_check, IsA, nodeTag, is_master_eq_false_iff]
    by_cases h1 : g'.alter_system = true <;>
      by_cases h2 : r' ∈ g'.master_roles <;> simp [h1, h2]
  refine ⟨key g r, ?_, ?_⟩
  · rw [key]; simp
  · rw [key]; simp

/-- C5. The check of `AlterTableStmt` as `r` raises (insufficient privilege,
`cannot execute ALTER TABLE`) exactly when `alter_table` is on and `r` is not
in `master_roles`.  With `alter_table` off it raises nothing for any requester
and any value of the other variables. -/
theorem C5_alter_table_decision (g : Globals) (r : String) :
    (pgr_check g .AlterTableStmt r =
      if g.alter_table = true ∧ r ∉ g.master_roles then
        .error
          { sqlerrcode := ERRCODE_INSUFFICIENT_PRIVILEGE
            message := "cannot execute ALTER TABLE" }
      else .ok ()) ∧
    (pgr_check { g with alter_table := false } .AlterTableStmt r = .ok ()) := by
  have key : ∀ (g' : Globals),
      pgr_check g' .AlterTableStmt r =
        if g'.alter_table = true ∧ r ∉ g'.master_roles then
          .error
            { sqlerrcode := ERRCODE_INSUFFICIENT_PRIVILEGE
              message := "cannot execute ALTER TABLE" }
        else .ok () := by
    intro g'
    simp only [pgr_check, IsA, nodeTag, is_master_eq_false_iff]
    by_cases h1 : g'.alter_table = true <;>
      by_cases h2 : r ∈ g'.master_roles <;> simp [h1, h2]
  refine ⟨key g, ?_⟩
  rw [key]; simp

/-- C6. The check of `CopyStmt is_program` as `r` raises (insufficient
privilege, `cannot execute COPY ... PROGRAM`) exactly when `copy_program` is
on, `is_program` is true and `r` is not in `master_roles`.  A `CopyStmt` with
`is_program = false` raises nothing for any requester, also with the setting
on. -/
theorem C6_copy_program_decision (g : Globals) (r : String) (is_program : Bool) :
    (pgr_check g (.CopyStmt is_program) r =
      if g.copy_program = true ∧ is_program = true ∧ r ∉ g.master_roles then
        .error
          { sqlerrcode := ERRCODE_INSUFFICIENT_PRIVILEGE
            message := "cannot execute COPY ... PROGRAM" }
      else .ok ()) ∧
    (pgr_check { g with copy_program := true } (.CopyStmt false) r = .ok ()) := by
  have key : ∀ (g' : Globals) (b : Bool),
      pgr_check g' (.CopyStmt b) r =
        if g'.copy_program = true ∧ b = true ∧ r ∉ g'.master_roles then
          .error
            { sqlerrcode := ERRCODE_INSUFFICIENT_PRIVILEGE
              message := "cannot execute COPY ... PROGRAM" }
        else .ok () := by
    intro g' b
    simp only [pgr_check, IsA, nodeTag, Node.is_program, is_master_eq_false_iff]
    by_cases h1 : g'.copy_program = true <;> cases b <;>
      by_cases h2 : r ∈ g'.master_roles <;> simp [h1, h2]
  refine ⟨key g is_program, ?_⟩
  rw [key]; simp

/-- C7. The check of a statement of any other kind raises nothing, for every
requester and every value of the variables; so it does with empty
`master_roles` and all three booleans on. -/
theorem C7_other_statement_allowed (g : Globals) (tag : Nat) (r : String) :
    pgr_check g (.Other tag) r = .ok () ∧
    pgr_check
        { g with
          alter_system := true, alter_table := true, copy_program := true
          master_roles := [] }
        (.Other tag) r = .ok () := by
  constructor <;> simp [pgr_check, IsA, nodeTag]

/-- C8. The shipped defaults, end to end.  The default of
`nonremovable_databases` parses (separator `,`) to exactly
`postgres, template1, template0` in that order and the default of
`master_roles` to exactly `postgres`.  Once the two check callbacks have run on
these defaults, from any prior state, dropping "template1" as "bob" is refused
with `cannot drop database "template1"`, dropping it as "postgres" is allowed,
and dropping "scratch" as "bob" is allowed. -/
theorem C8_shipped_defaults (g0 : Globals) :
    split_string_into_list PGR_DEFAULT_NONREMOVABLE_DBS.toList ',' =
      some ["postgres".toList, "template1".toList, "template0".toList] ∧
    split_string_into_list PGR_DEFAULT_MASTER_ROLES.toList ',' =
      some ["postgres".toList] ∧
    (check_master_roles PGR_DEFAULT_MASTER_ROLES
        (check_nonremovable_databases PGR_DEFAULT_NONREMOVABLE_DBS
          g0).globals).globals.nonremovable_databases =
      ["postgres", "template1", "template0"] ∧
    (check_master_roles PGR_DEFAULT_MASTER_ROLES
        (check_nonremovable_databases PGR_DEFAULT_NONREMOVABLE_DBS
          g0).globals).globals.master_roles = ["postgres"] ∧
    pgr_check
        (check_master_roles PGR_DEFAULT_MASTER_ROLES
          (check_nonremovable_databases PGR_DEFAULT_NONREMOVABLE_DBS g0).globals).globals
        (.DropdbStmt "template1") "bob" =
      .error
        { sqlerrcode := ERRCODE_INSUFFICIENT_PRIVILEGE
          message := "cannot drop database \"template1\"" } ∧
    pgr_check
        (check_master_roles PGR_DEFAULT_MASTER_ROLES
          (check_nonremovable_databases PGR_DEFAULT_NONREMOVABLE_DBS g0).globals).globals
        (.DropdbStmt "template1") "postgres" = .ok () ∧
    pgr_check
        (check_master_roles PGR_DEFAULT_MASTER_ROLES
          (check_nonremovable_databases PGR_DEFAULT_NONREMOVABLE_DBS g0).globals).globals
        (.DropdbStmt "scratch") "bob" = .ok () := by
  have hdb : split_string_into_list PGR_DEFAULT_NONREMOVABLE_DBS.toList ',' =
      some ["postgres".toList, "template1".toList, "template0".toList] := by decide
  have hmr : split_string_into_list PGR_DEFAULT_MASTER_ROLES.toList ',' =
      some ["postgres".toList] := by decide
  have hg : (check_master_roles PGR_DEFAULT_MASTER_ROLES
      (check_nonremovable_databases PGR_DEFAULT_NONREMOVABLE_DBS g0).globals).globals =
      { g0 with
        master_roles := ["postgres"]
        nonremovable_databases := ["postgres", "template1", "template0"] } := by
    simp only [check_master_roles, check_nonremovable_databases, hdb, hmr, foreach_ltmp_eq]
    rfl
  rw [hg]
  refine ⟨hdb, hmr, rfl, rfl, ?_, ?_, ?_⟩
  · simp [pgr_check, IsA, nodeTag, Node.dbname, foreach_nonremovable_databases_eq]
  · simp [pgr_check, IsA, nodeTag, Node.dbname, foreach_nonremovable_databases_eq]
  · simp [pgr_check, IsA, nodeTag, Node.dbname, foreach_nonremovable_databases_eq]

/-- C9. The hook forwards exactly when the check allows.  If the check raises
nothing, the hook raises nothing and makes exactly one call, with the
arguments it received: to the saved hook when one is saved, to
`standard_ProcessUtility` when none is, never to both.  If the check raises an
error, the hook raises that error and calls no next handler. -/
theorem C9_forward_once_or_never (g : Globals) (r : String) (args : UtilityArgs) :
    (pgr_check g args.pstmt r = .ok () →
      (pgr_ProcessUtility g r args).error = none ∧
      (pgr_ProcessUtility g r args).calls =
        [{ callee :=
            match g.prev_ProcessUtility with
            | some hook => Callee.prev_ProcessUtility hook
            | none => Callee.standard_ProcessUtility
           args := args }]) ∧
    (∀ e, pgr_check g args.pstmt r = .error e →
      (pgr_ProcessUtility g r args).error = some e ∧
      (pgr_ProcessUtility g r args).calls = []) := by
  constructor
  · intro h
    unfold pgr_ProcessUtility
    rw [h]
    cases g.prev_ProcessUtility <;> simp
  · intro e h
    unfold pgr_ProcessUtility
    rw [h]
    simp

/-- Witness of C9: with hook 7 saved, "bob" dropping the protected database
"template1" is refused and nothing is called; "postgres" doing the same is
forwarded once, to hook 7, with the arguments unchanged. -/
theorem C9_forward_once_or_never_witness :
    (pgr_ProcessUtility
        { alter_system := false, alter_table := false, copy_program := false
          master_roles := ["postgres"], nonremovable_databases := ["template1"]
          nonremovable_roles := [], prev_ProcessUtility := some 7 }
        "bob"
        { pstmt := .DropdbStmt "template1", queryString := "DROP DATABASE template1"
          context := 0, params := 0, queryEnv := 0, dest := 0, qc := 0 }).calls = [] ∧
    (pgr_ProcessUtility
        { alter_system := false, alter_table := false, copy_program := false
          master_roles := ["postgres"], nonremovable_databases := ["template1"]
          nonremovable_roles := [], prev_ProcessUtility := some 7 }
        "postgres"
        { pstmt := .DropdbStmt "template1", queryString := "DROP DATABASE template1"
          context := 0, params := 0, queryEnv := 0, dest := 0, qc := 0 }).calls =
      [{ callee := Callee.prev_ProcessUtility 7
         args :=
          { pstmt := .DropdbStmt "template1", queryString := "DROP DATABASE template1"
            context := 0, params := 0, queryEnv := 0, dest := 0, qc := 0 } }] :=
  ⟨((C9_forward_once_or_never _ _ _).2
      { sqlerrcode := ERRCODE_INSUFFICIENT_PRIVILEGE
        message := "cannot drop database \"template1\"" } (by decide)).2,
   ((C9_forward_once_or_never _ _ _).1 (by decide)).2⟩

/-- C10. Validate before commit, for each of the three check callbacks.  If
`split_string_into_list` rejects the new value (separator `,`), the callback
returns false and leaves every variable as it was.  If it accepts the value
with names `ltmp`, the callback returns true, the list of its own setting
becomes exactly `ltmp` (same names, same order, repeats kept) and every other
variable is as it was. -/
theorem C10_validate_before_commit (newval : String) (g : Globals) :
    (split_string_into_list newval.toList ',' = none →
      (check_master_roles newval g).result = false ∧
      (check_master_roles newval g).globals = g ∧
      (check_nonremovable_databases newval g).result = false ∧
      (check_nonremovable_databases newval g).globals = g ∧
      (check_nonremovable_roles newval g).result = false ∧
      (check_nonremovable_roles newval g).globals = g) ∧
    (∀ ltmp, split_string_into_list newval.toList ',' = some ltmp →
      (check_master_roles newval g).result = true ∧
      (check_master_roles newval g).globals =
        { g with master_roles := ltmp.map pstrdup } ∧
      (check_nonremovable_databases newval g).result = true ∧
      (check_nonremovable_databases newval g).globals =
        { g with nonremovable_databases := ltmp.map pstrdup } ∧
      (check_nonremovable_roles newval g).result = true ∧
      (check_nonremovable_roles newval g).globals =
        { g with nonremovable_roles := ltmp.map pstrdup }) := by
  constructor
  · intro h
    simp only [check_master_roles, check_nonremovable_databases, check_nonremovable_roles, h]
    simp
  · intro ltmp h
    simp only [check_master_roles, check_nonremovable_databases, check_nonremovable_roles, h,
      foreach_ltmp_eq, List.nil_append]
    simp

/-- Witness of C10: `a,,b` is rejected and `master_roles` stays `["postgres"]`;
`x, y, x` is accepted and `master_roles` becomes `["x", "y", "x"]`. -/
theorem C10_validate_before_commit_witness :
    ((check_master_roles "a,,b"
        { alter_system := true, alter_table := false, copy_program := true
          master_roles := ["postgres"], nonremovable_databases := ["template1"]
          nonremovable_roles := ["postgres"], prev_ProcessUtility := none }).result = false ∧
      (check_master_roles "a,,b"
        { alter_system := true, alter_table := false, copy_program := true
          master_roles := ["postgres"], nonremovable_databases := ["template1"]
          nonremovable_roles := ["postgres"], prev_ProcessUtility := none }).globals =
        { alter_system := true, alter_table := false, copy_program := true
          master_roles := ["postgres"], nonremovable_databases := ["template1"]
          nonremovable_roles := ["postgres"], prev_ProcessUtility := none }) ∧
    ((check_master_roles "x, y, x"
        { alter_system := true, alter_table := false, copy_program := true
          master_roles := ["postgres"], nonremovable_databases := ["template1"]
          nonremovable_roles := ["postgres"], prev_ProcessUtility := none }).result = true ∧
      (check_master_roles "x, y, x"
        { alter_system := true, alter_table := false, copy_program := true
          master_roles := ["postgres"], nonremovable_databases := ["template1"]
          nonremovable_roles := ["postgres"], prev_ProcessUtility := none }).globals =
        { alter_system := true, alter_table := false, copy_program := true
          master_roles := ["x", "y", "x"], nonremovable_databases := ["template1"]
          nonremovable_roles := ["postgres"], prev_ProcessUtility := none }) :=
  ⟨⟨((C10_validate_before_commit "a,,b" _).1 (by decide)).1,
    ((C10_validate_before_commit "a,,b" _).1 (by decide)).2.1⟩,
   ⟨((C10_validate_before_commit "x, y, x" _).2
      ["x".toList, "y".toList, "x".toList] (by decide)).1,
    ((C10_validate_before_commit "x, y, x" _).2
      ["x".toList, "y".toList, "x".toList] (by decide)).2.1⟩⟩

/-! ## Lemmas about the parser -/

theorem skip_whitespace_of_whitespace (w : List Char) (h : IsWhitespace w) :
    skip_whitespace w = [] := by
  induction w with
  | nil => rfl
  | cons c cs ih =>
    have hc : scanner_isspace c = true := h c (List.mem_cons_self _ _)
    have hcs : IsWhitespace cs := fun d hd => h d (List.mem_cons_of_mem _ hd)
    simp [skip_whitespace, hc, ih hcs]

theorem skip_whitespace_append (w rest : List Char) (h : IsWhitespace w) :
    skip_whitespace (w ++ rest) = skip_whitespace rest := by
  induction w with
  | nil => rfl
  | cons c cs ih =>
    have hc : scanner_isspace c = true := h c (List.mem_cons_self _ _)
    have hcs : IsWhitespace cs := fun d hd => h d (List.mem_cons_of_mem _ hd)
    simp [skip_whitespace, hc, ih hcs]

theorem skip_whitespace_cons (c : Char) (cs : List Char) (h : scanner_isspace c = false) :
    skip_whitespace (c :: cs) = c :: cs := by
  simp [skip_whitespace, h]

theorem split_string_into_list_nil (rawstring : List Char) (separator : Char)
    (h : skip_whitespace rawstring = []) :
    split_string_into_list rawstring separator = some [] := by
  unfold split_string_into_list
  rw [h]

theorem split_string_into_list_cons (rawstring : List Char) (separator c : Char)
    (cs : List Char) (h : skip_whitespace rawstring = c :: cs) :
    split_string_into_list rawstring separator =
      split_loop separator ((c :: cs).length + 1) (c :: cs) [] := by
  unfold split_string_into_list
  rw [h]

/-- One pass of the loop, with the fuel out of the way. -/
theorem split_loop_unfold (separator : Char) (nextp : List Char)
    (namelist : List (List Char)) :
    split_loop separator (nextp.length + 1) nextp namelist =
      match next_name separator nextp with
      | none => none
      | some (curname, after) =>
        match skip_whitespace after with
        | [] => some (namelist ++ [curname])
        | c :: cs =>
          if c = separator then
            split_loop separator ((skip_whitespace cs).length + 1) (skip_whitespace cs)
              (namelist ++ [curname])
          else none := by
  rw [split_loop]
  cases hn : next_name separator nextp with
  | none => rfl
  | some p =>
    obtain ⟨curname, after⟩ := p
    have hlt := next_name_length _ _ _ _ hn
    simp only
    cases hs : skip_whitespace after with
    | nil => rfl
    | cons c cs =>
      have h3 := skip_whitespace_length after
      have h4 := skip_whitespace_length cs
      rw [hs] at h3
      simp only [List.length_cons] at h3
      simp only
      by_cases hc : c = separator
      · simp only [hc, if_true, lappend]
        exact split_loop_fuel _ _ _ _ _ (by omega) (by omega)
      · simp only [hc, if_false]

theorem scan_unquoted_plain (separator : Char) (t rest : List Char)
    (ht : ∀ c ∈ t, c ≠ separator ∧ c ≠ '"' ∧ scanner_isspace c = false)
    (hrest : ∀ c cs, rest = c :: cs → c = separator ∨ scanner_isspace c = true) :
    scan_unquoted separator (t ++ rest) = (t, rest) := by
  induction t with
  | nil =>
    cases rest with
    | nil => rfl
    | cons c cs =>
      have h := hrest c cs rfl
      have hcond : ¬ (c ≠ separator ∧ scanner_isspace c = false) := by
        intro ⟨h1, h2⟩
        cases h with
        | inl h => exact h1 h
        | inr h => rw [h] at h2; cases h2
      simp only [List.nil_append, scan_unquoted, hcond, if_false]
  | cons c cs ih =>
    have hc := ht c (List.mem_cons_self _ _)
    have hcs : ∀ d ∈ cs, d ≠ separator ∧ d ≠ '"' ∧ scanner_isspace d = false :=
      fun d hd => ht d (List.mem_cons_of_mem _ hd)
    have hcond : c ≠ separator ∧ scanner_isspace c = false := ⟨hc.1, hc.2.2⟩
    rw [List.cons_append]
    unfold scan_unquoted
    rw [if_pos hcond, ih hcs]

theorem next_name_plain (separator : Char) (t rest : List Char)
    (ht : IsPlain separator t)
    (hrest : ∀ c cs, rest = c :: cs → c = separator ∨ scanner_isspace c = true) :
    next_name separator (t ++ rest) = some (t, rest) := by
  obtain ⟨hne, hall⟩ := ht
  have hscan := scan_unquoted_plain separator t rest hall hrest
  cases t with
  | nil => exact absurd rfl hne
  | cons c cs =>
    have hc := hall c (List.mem_cons_self _ _)
    rw [List.cons_append] at hscan ⊢
    unfold next_name
    split
    · rename_i heq
      simp only [List.cons.injEq] at heq
      exact absurd heq.1 hc.2.1
    · rw [hscan]
      simp

theorem next_name_nil (separator : Char) : next_name separator [] = none := by
  simp [next_name, scan_unquoted]

theorem next_name_separator (separator : Char) (cs : List Char) (h : separator ≠ '"') :
    next_name separator (separator :: cs) = none := by
  unfold next_name
  split
  · rename_i heq
    simp only [List.cons.injEq] at heq
    exact absurd heq.1 h
  · simp [scan_unquoted]

theorem collapse_quotes_double_quotes (s rest : List Char)
    (hrest : ∀ c cs, rest = c :: cs → c ≠ '"') :
    collapse_quotes (double_quotes s ++ '"' :: rest) = some (s, rest) := by
  induction s with
  | nil =>
    cases rest with
    | nil => simp [double_quotes, collapse_quotes]
    | cons d cs =>
      have hd := hrest d cs rfl
      simp [double_quotes, collapse_quotes, hd]
  | cons c cs ih =>
    by_cases hc : c = '"'
    · subst hc
      simp [double_quotes, collapse_quotes, ih]
    · simp only [double_quotes, hc, if_false, List.cons_append]
      unfold collapse_quotes
      simp only [hc, if_false, ih]

theorem next_name_quoted (separator : Char) (s rest : List Char)
    (hrest : ∀ c cs, rest = c :: cs → c ≠ '"') :
    next_name separator (quoted s ++ rest) = some (s, rest) := by
  have h : quoted s ++ rest = '"' :: (double_quotes s ++ '"' :: rest) := by
    simp [quoted]
  rw [h]
  simp only [next_name]
  exact collapse_quotes_double_quotes s rest hrest

theorem collapse_quotes_no_quote (t : List Char) (h : '"' ∉ t) :
    collapse_quotes t = none := by
  induction t with
  | nil => rfl
  | cons c cs ih =>
    have hc : c ≠ '"' := fun e => h (by simp [e])
    have hcs : '"' ∉ cs := fun e => h (List.mem_cons_of_mem _ e)
    unfold collapse_quotes
    simp only [hc, if_false, ih hcs]

theorem scanner_isspace_quote : scanner_isspace '"' = false := by decide

/-- A well-formed written token at `nextp` is isolated with its name, when
what follows it is the end of the text, the separator or whitespace and the
separator is not the quote. -/
theorem next_name_written (separator : Char) (tok : Written) (rest : List Char)
    (hsep : separator ≠ '"') (htok : tok.WellFormed separator)
    (hrest : ∀ c cs, rest = c :: cs → c = separator ∨ scanner_isspace c = true) :
    next_name separator (tok.text ++ rest) = some (tok.name, rest) := by
  cases tok with
  | plain t => exact next_name_plain separator t rest htok hrest
  | closed s =>
    refine next_name_quoted separator s rest ?_
    intro c cs hc hq
    cases hrest c cs hc with
    | inl h => exact hsep (h ▸ hq)
    | inr h => rw [hq, scanner_isspace_quote] at h; cases h

theorem split_loop_none (separator : Char) (nextp : List Char)
    (namelist : List (List Char)) (h : next_name separator nextp = none) :
    split_loop separator (nextp.length + 1) nextp namelist = none := by
  rw [split_loop_unfold, h]

theorem split_loop_last (separator : Char) (nextp name a : List Char)
    (namelist : List (List Char)) (h : next_name separator nextp = some (name, a))
    (ha : IsWhitespace a) :
    split_loop separator (nextp.length + 1) nextp namelist = some (namelist ++ [name]) := by
  rw [split_loop_unfold, h]
  simp only [skip_whitespace_of_whitespace a ha]

theorem split_loop_step (separator : Char) (nextp name a rest : List Char)
    (namelist : List (List Char))
    (h : next_name separator nextp = some (name, a ++ separator :: rest))
    (ha : IsWhitespace a) (hsep : scanner_isspace separator = false) :
    split_loop separator (nextp.length + 1) nextp namelist =
      split_loop separator ((skip_whitespace rest).length + 1) (skip_whitespace rest)
        (namelist ++ [name]) := by
  rw [split_loop_unfold, h]
  simp only [skip_whitespace_append a _ ha, skip_whitespace_cons separator rest hsep, if_true]

theorem split_loop_junk (separator c : Char) (nextp name a rest : List Char)
    (namelist : List (List Char))
    (h : next_name separator nextp = some (name, a ++ c :: rest))
    (ha : IsWhitespace a) (hc : scanner_isspace c = false) (hne : c ≠ separator) :
    split_loop separator (nextp.length + 1) nextp namelist = none := by
  rw [split_loop_unfold, h]
  simp only [skip_whitespace_append a _ ha, skip_whitespace_cons c rest hc, hne, if_false]

theorem stops_of_whitespace_append (separator : Char) (w rest : List Char)
    (hw : IsWhitespace w)
    (hrest : ∀ c cs, rest = c :: cs → c = separator ∨ scanner_isspace c = true) :
    ∀ c cs, w ++ rest = c :: cs → c = separator ∨ scanner_isspace c = true := by
  intro c cs h
  cases w with
  | nil => exact hrest c cs h
  | cons d ds =>
    simp only [List.cons_append, List.cons.injEq] at h
    exact Or.inr (h.1 ▸ hw d (List.mem_cons_self _ _))

theorem stops_of_whitespace (separator : Char) (w : List Char) (hw : IsWhitespace w) :
    ∀ c cs, w = c :: cs → c = separator ∨ scanner_isspace c = true := by
  intro c cs h
  exact Or.inr (hw c (h ▸ List.mem_cons_self _ _))

theorem stops_of_separator (separator : Char) (rest : List Char) :
    ∀ c cs, separator :: rest = c :: cs → c = separator ∨ scanner_isspace c = true := by
  intro c cs h
  simp only [List.cons.injEq] at h
  exact Or.inl h.1.symm

theorem skip_whitespace_plain (separator : Char) (t rest : List Char)
    (ht : IsPlain separator t) : skip_whitespace (t ++ rest) = t ++ rest := by
  obtain ⟨hne, hall⟩ := ht
  cases t with
  | nil => exact absurd rfl hne
  | cons c cs =>
    exact skip_whitespace_cons c _ (hall c (List.mem_cons_self _ _)).2.2

theorem padded_join_nil (separator : Char) : padded_join separator [] = [] := by
  simp [padded_join, List.intercalate]

theorem padded_join_single (separator : Char) (p : Padded) :
    padded_join separator [p] = p.text := by
  simp [padded_join, List.intercalate]

theorem padded_join_cons_cons (separator : Char) (p q : Padded) (rest : List Padded) :
    padded_join separator (p :: q :: rest) =
      p.text ++ separator :: padded_join separator (q :: rest) := by
  simp [padded_join, List.intercalate]

theorem whitespace_of_skip_whitespace_nil (l : List Char) (h : skip_whitespace l = []) :
    IsWhitespace l := by
  induction l with
  | nil => intro c hc; cases hc
  | cons d ds ih =>
    unfold skip_whitespace at h
    by_cases hd : scanner_isspace d = true
    · rw [if_pos hd] at h
      intro c hc
      cases hc with
      | head => exact hd
      | tail _ hmem => exact ih h c hmem
    · rw [if_neg hd] at h
      cases h

theorem split_string_into_list_eq_loop (rawstring : List Char) (separator : Char)
    (h : skip_whitespace rawstring ≠ []) :
    split_string_into_list rawstring separator =
      split_loop separator ((skip_whitespace rawstring).length + 1)
        (skip_whitespace rawstring) [] := by
  cases hs : skip_whitespace rawstring with
  | nil => exact absurd hs h
  | cons c cs => exact split_string_into_list_cons _ _ _ _ hs

/-- The loop on padded plain tokens joined with a separator that is not
whitespace: every token is isolated, without its padding. -/
theorem split_loop_padded (separator : Char) (hsep : scanner_isspace separator = false)
    (items : List Padded) (hne : items ≠ [])
    (hitems : ∀ p ∈ items,
      IsWhitespace p.before ∧ IsPlain separator p.tok ∧ IsWhitespace p.after)
    (namelist : List (List Char)) :
    split_loop separator ((skip_whitespace (padded_join separator items)).length + 1)
        (skip_whitespace (padded_join separator items)) namelist =
      some (namelist ++ items.map Padded.tok) := by
  induction items generalizing namelist with
  | nil => exact absurd rfl hne
  | cons p rest ih =>
    obtain ⟨hb, ht, ha⟩ := hitems p (List.mem_cons_self _ _)
    cases rest with
    | nil =>
      rw [padded_join_single, Padded.text, skip_whitespace_append _ _ hb,
        skip_whitespace_plain separator _ _ ht]
      rw [split_loop_last separator _ p.tok p.after namelist
        (next_name_plain separator _ _ ht (stops_of_whitespace separator _ ha)) ha]
      simp
    | cons q rest2 =>
      have hrest : ∀ r ∈ q :: rest2,
          IsWhitespace r.before ∧ IsPlain separator r.tok ∧ IsWhitespace r.after :=
        fun r hr => hitems r (List.mem_cons_of_mem _ hr)
      have htext : p.text ++ separator :: padded_join separator (q :: rest2) =
          p.before ++ (p.tok ++ (p.after ++ separator :: padded_join separator (q :: rest2))) := by
        simp [Padded.text]
      rw [padded_join_cons_cons, htext, skip_whitespace_append _ _ hb,
        skip_whitespace_plain separator _ _ ht]
      rw [split_loop_step separator _ p.tok p.after _ namelist
        (next_name_plain separator _ _ ht
          (stops_of_whitespace_append separator _ _ ha (stops_of_separator separator _)))
        ha hsep]
      rw [ih (by simp) hrest]
      simp

/-- The loop on padded strings joined with a separator, one of which is
empty: it fails at the first empty one. -/
theorem split_loop_empty_item (separator : Char)
    (hsep : scanner_isspace separator = false) (hq : separator ≠ '"')
    (items : List Padded)
    (hitems : ∀ p ∈ items,
      IsWhitespace p.before ∧ (p.tok = [] ∨ IsPlain separator p.tok) ∧ IsWhitespace p.after)
    (hempty : ∃ p ∈ items, p.tok = []) (namelist : List (List Char)) :
    split_loop separator ((skip_whitespace (padded_join separator items)).length + 1)
        (skip_whitespace (padded_join separator items)) namelist = none := by
  induction items generalizing namelist with
  | nil =>
    obtain ⟨p, hp, -⟩ := hempty
    cases hp
  | cons p rest ih =>
    obtain ⟨hb, ht, ha⟩ := hitems p (List.mem_cons_self _ _)
    by_cases hp : p.tok = []
    · cases rest with
      | nil =>
        rw [padded_join_single, Padded.text, hp, List.nil_append,
          skip_whitespace_append _ _ hb, skip_whitespace_of_whitespace _ ha]
        exact split_loop_none separator [] namelist (next_name_nil separator)
      | cons q rest2 =>
        have htext : p.text ++ separator :: padded_join separator (q :: rest2) =
            p.before ++ (p.after ++ separator :: padded_join separator (q :: rest2)) := by
          simp [Padded.text, hp]
        rw [padded_join_cons_cons, htext, skip_whitespace_append _ _ hb,
          skip_whitespace_append _ _ ha, skip_whitespace_cons _ _ hsep]
        exact split_loop_none separator _ namelist (next_name_separator separator _ hq)
    · have hplain : IsPlain separator p.tok := by
        cases ht with
        | inl h => exact absurd h hp
        | inr h => exact h
      have hempty2 : ∃ r ∈ rest, r.tok = [] := by
        obtain ⟨r, hr, hr0⟩ := hempty
        cases hr with
        | head => exact absurd hr0 hp
        | tail _ hmem => exact ⟨r, hmem, hr0⟩
      cases rest with
      | nil =>
        obtain ⟨r, hr, -⟩ := hempty2
        cases hr
      | cons q rest2 =>
        have hrest : ∀ r ∈ q :: rest2,
            IsWhitespace r.before ∧ (r.tok = [] ∨ IsPlain separator r.tok) ∧
              IsWhitespace r.after :=
          fun r hr => hitems r (List.mem_cons_of_mem _ hr)
        have htext : p.text ++ separator :: padded_join separator (q :: rest2) =
            p.before ++
              (p.tok ++ (p.after ++ separator :: padded_join separator (q :: rest2))) := by
          simp [Padded.text]
        rw [padded_join_cons_cons, htext, skip_whitespace_append _ _ hb,
          skip_whitespace_plain separator _ _ hplain]
        rw [split_loop_step separator _ p.tok p.after _ namelist
          (next_name_plain separator _ _ hplain
            (stops_of_whitespace_append separator _ _ ha (stops_of_separator separator _)))
          ha hsep]
        exact ih hrest hempty2 _

theorem skip_whitespace_ne_nil (l : List Char) (c : Char) (hc : c ∈ l)
    (hns : scanner_isspace c = false) : skip_whitespace l ≠ [] := by
  intro h
  have := whitespace_of_skip_whitespace_nil l h c hc
  rw [hns] at this
  cases this

theorem text_subset_padded_join (separator : Char) (p : Padded) (rest : List Padded)
    (c : Char) (hc : c ∈ p.text) : c ∈ padded_join separator (p :: rest) := by
  cases rest with
  | nil => rw [padded_join_single]; exact hc
  | cons q rest2 =>
    rw [padded_join_cons_cons]
    exact List.mem_append_left _ hc

theorem separator_mem_padded_join (separator : Char) (p q : Padded) (rest : List Padded) :
    separator ∈ padded_join separator (p :: q :: rest) := by
  rw [padded_join_cons_cons]
  exact List.mem_append_right _ (List.mem_cons_self _ _)

theorem skip_whitespace_quoted (s rest : List Char) :
    skip_whitespace (quoted s ++ rest) = quoted s ++ rest := by
  simp only [quoted, List.cons_append]
  exact skip_whitespace_cons _ _ scanner_isspace_quote

theorem intercalate_quoted_cons_cons (separator : Char) (s t : List Char)
    (rest : List (List Char)) :
    List.intercalate [separator] ((s :: t :: rest).map quoted) =
      quoted s ++ separator :: List.intercalate [separator] ((t :: rest).map quoted) := by
  simp [List.intercalate]

theorem intercalate_quoted_head (separator : Char) (t : List Char)
    (rest : List (List Char)) :
    ∃ r, List.intercalate [separator] ((t :: rest).map quoted) = quoted t ++ r := by
  cases rest with
  | nil => exact ⟨[], by simp [List.intercalate]⟩
  | cons u rest2 => exact ⟨_, intercalate_quoted_cons_cons separator t u rest2⟩

/-- The loop on quoted tokens joined with a separator that is neither
whitespace nor the quote: every string comes back as written. -/
theorem split_loop_quoted (separator : Char) (hsep : scanner_isspace separator = false)
    (hq : separator ≠ '"') (strs : List (List Char)) (hne : strs ≠ [])
    (namelist : List (List Char)) :
    split_loop separator
        ((List.intercalate [separator] (strs.map quoted)).length + 1)
        (List.intercalate [separator] (strs.map quoted)) namelist =
      some (namelist ++ strs) := by
  induction strs generalizing namelist with
  | nil => exact absurd rfl hne
  | cons s rest ih =>
    cases rest with
    | nil =>
      have htext : List.intercalate [separator] ([s].map quoted) = quoted s ++ [] := by
        simp [List.intercalate]
      rw [htext]
      exact split_loop_last separator _ s [] namelist
        (next_name_quoted separator s [] (fun c cs h => by cases h))
        (fun c hc => by cases hc)
    | cons t rest2 =>
      rw [intercalate_quoted_cons_cons]
      have hnext : next_name separator
          (quoted s ++ separator :: List.intercalate [separator] ((t :: rest2).map quoted)) =
          some (s, [] ++ separator ::
            List.intercalate [separator] ((t :: rest2).map quoted)) := by
        refine next_name_quoted separator s _ ?_
        intro c cs h
        simp only [List.cons.injEq] at h
        exact h.1 ▸ hq
      rw [split_loop_step separator _ s [] _ namelist hnext (fun c hc => by cases hc) hsep]
      obtain ⟨r, hr⟩ := intercalate_quoted_head separator t rest2
      have hskip : skip_whitespace (List.intercalate [separator] ((t :: rest2).map quoted)) =
          List.intercalate [separator] ((t :: rest2).map quoted) := by
        rw [hr]
        exact skip_whitespace_quoted t r
      rw [hskip, ih (by simp)]
      simp

theorem skip_whitespace_written (separator : Char) (tok : Written) (rest : List Char)
    (htok : tok.WellFormed separator) :
    skip_whitespace (tok.text ++ rest) = tok.text ++ rest := by
  cases tok with
  | plain t => exact skip_whitespace_plain separator t rest htok
  | closed s => exact skip_whitespace_quoted s rest

theorem written_text_ne_nil (separator : Char) (tok : Written)
    (htok : tok.WellFormed separator) : tok.text ≠ [] := by
  cases tok with
  | plain t => exact htok.1
  | closed s => simp [Written.text, quoted]

theorem segment_text_eq (separator : Char) (seg : Segment) (rest : List Char) :
    seg.text separator ++ rest =
      seg.tok.text ++ (seg.gap ++ separator :: (seg.lead ++ rest)) := by
  simp [Segment.text]

theorem skip_whitespace_segments (separator : Char) (segs : List Segment)
    (hsegs : ∀ seg ∈ segs, seg.WellFormed separator) (rest : List Char)
    (hrest : skip_whitespace rest = rest) :
    skip_whitespace (segments_text separator segs ++ rest) =
      segments_text separator segs ++ rest := by
  cases segs with
  | nil => exact hrest
  | cons seg more =>
    rw [segments_text, List.append_assoc, segment_text_eq]
    exact skip_whitespace_written separator seg.tok _ (hsegs seg (List.mem_cons_self _ _)).1

theorem head_of_skip_whitespace_fixed (l : List Char) (h : skip_whitespace l = l)
    (hne : l ≠ []) : ∃ c cs, l = c :: cs ∧ scanner_isspace c = false := by
  cases l with
  | nil => exact absurd rfl hne
  | cons c cs =>
    refine ⟨c, cs, rfl, ?_⟩
    by_cases hc : scanner_isspace c = true
    · have hlen := skip_whitespace_length cs
      unfold skip_whitespace at h
      rw [if_pos hc] at h
      rw [h] at hlen
      simp at hlen
    · simpa using hc

/-- The loop walks through well-formed segments and goes on after them, when
the separator is neither whitespace nor the quote. -/
theorem split_loop_segments (separator : Char) (hsep : scanner_isspace separator = false)
    (hq : separator ≠ '"') (segs : List Segment)
    (hsegs : ∀ seg ∈ segs, seg.WellFormed separator) (rest : List Char)
    (hrest : skip_whitespace rest = rest) (namelist : List (List Char)) :
    split_loop separator ((segments_text separator segs ++ rest).length + 1)
        (segments_text separator segs ++ rest) namelist =
      split_loop separator (rest.length + 1) rest
        (namelist ++ segs.map fun seg => seg.tok.name) := by
  induction segs generalizing namelist with
  | nil => simp [segments_text]
  | cons seg more ih =>
    obtain ⟨htok, hgap, hlead⟩ := hsegs seg (List.mem_cons_self _ _)
    have hmore : ∀ sg ∈ more, sg.WellFormed separator :=
      fun sg hsg => hsegs sg (List.mem_cons_of_mem _ hsg)
    rw [segments_text, List.append_assoc, segment_text_eq]
    rw [split_loop_step separator _ seg.tok.name seg.gap _ namelist
      (next_name_written separator seg.tok _ hq htok
        (stops_of_whitespace_append separator _ _ hgap (stops_of_separator separator _)))
      hgap hsep]
    rw [skip_whitespace_append _ _ hlead,
      skip_whitespace_segments separator more hmore rest hrest, ih hmore]
    simp

/-- With a whitespace separator the loop fails after the first token of a
segment when more text follows: the separator is skipped as whitespace and
what comes next is not the separator. -/
theorem split_loop_whitespace_separator (separator : Char)
    (hsep : scanner_isspace separator = true) (seg : Segment)
    (hseg : seg.WellFormed separator) (rest : List Char)
    (hrest : skip_whitespace rest = rest) (hne : rest ≠ [])
    (namelist : List (List Char)) :
    split_loop separator ((seg.text separator ++ rest).length + 1)
        (seg.text separator ++ rest) namelist = none := by
  obtain ⟨htok, hgap, hlead⟩ := hseg
  obtain ⟨c, cs, hc, hcs⟩ := head_of_skip_whitespace_fixed rest hrest hne
  have hq : separator ≠ '"' := by
    intro e
    rw [e, scanner_isspace_quote] at hsep
    cases hsep
  have hcne : c ≠ separator := by
    intro e
    rw [e, hsep] at hcs
    cases hcs
  have hpad : IsWhitespace (seg.gap ++ separator :: seg.lead) := by
    intro d hd
    rcases List.mem_append.mp hd with h | h
    · exact hgap d h
    · cases h with
      | head => exact hsep
      | tail _ hmem => exact hlead d hmem
  have hnext : next_name separator (seg.text separator ++ rest) =
      some (seg.tok.name, (seg.gap ++ separator :: seg.lead) ++ c :: cs) := by
    rw [segment_text_eq, hc]
    have := next_name_written separator seg.tok
      (seg.gap ++ separator :: (seg.lead ++ c :: cs)) hq htok
      (stops_of_whitespace_append separator _ _ hgap (stops_of_separator separator _))
    simpa using this
  exact split_loop_junk separator c _ seg.tok.name _ cs namelist hnext hpad hcs hcne

/-- If the loop fails on a text that starts a name, it fails on that text put
after well-formed segments, for every separator other than the quote. -/
theorem split_loop_segments_none (separator : Char) (hq : separator ≠ '"')
    (segs : List Segment) (hsegs : ∀ seg ∈ segs, seg.WellFormed separator)
    (rest : List Char) (hrest : skip_whitespace rest = rest) (hne : rest ≠ [])
    (hfail : ∀ namelist, split_loop separator (rest.length + 1) rest namelist = none)
    (namelist : List (List Char)) :
    split_loop separator ((segments_text separator segs ++ rest).length + 1)
        (segments_text separator segs ++ rest) namelist = none := by
  by_cases hsep : scanner_isspace separator = true
  · cases segs with
    | nil => simpa [segments_text] using hfail namelist
    | cons seg more =>
      have hmore : ∀ sg ∈ more, sg.WellFormed separator :=
        fun sg hsg => hsegs sg (List.mem_cons_of_mem _ hsg)
      rw [segments_text, List.append_assoc]
      refine split_loop_whitespace_separator separator hsep seg
        (hsegs seg (List.mem_cons_self _ _)) _
        (skip_whitespace_segments separator more hmore rest hrest) ?_ namelist
      intro h
      exact hne (List.append_eq_nil.mp h).2
  · have hsep2 : scanner_isspace separator = false := by simpa using hsep
    rw [split_loop_segments separator hsep2 hq segs hsegs rest hrest]
    exact hfail _

/-- With more fuel than the text at `nextp` is long, the loop returns before
the fuel is used up, and what it returns is the result of `split_loop`. -/
theorem split_loop_run_returns (separator : Char) (fuel : Nat) (nextp : List Char)
    (namelist : List (List Char)) (h : nextp.length < fuel) :
    split_loop_run separator fuel nextp namelist =
      .returned (split_loop separator fuel nextp namelist) := by
  induction fuel generalizing nextp namelist with
  | zero => omega
  | succ f ih =>
    unfold split_loop_run split_loop
    cases hn : next_name separator nextp with
    | none => rfl
    | some p =>
      obtain ⟨curname, after⟩ := p
      have hlt := next_name_length _ _ _ _ hn
      simp only
      cases hs : skip_whitespace after with
      | nil => rfl
      | cons c cs =>
        have h3 := skip_whitespace_length after
        have h4 := skip_whitespace_length cs
        rw [hs] at h3
        simp only [List.length_cons] at h3
        simp only
        by_cases hc : c = separator
        · simp only [hc, if_true]
          exact ih _ _ (by omega)
        · simp only [hc, if_false]

/-! ## The claims about the parser -/

/-- C11, as amended. Round trip of plain tokens: for every separator that is
not a whitespace character and every sequence of tokens that are non-empty
and hold no separator, quote or whitespace character, the tokens joined with
the separator parse, with that separator, to the same sequence in the same
order. -/
theorem C11_round_trip_plain (separator : Char) (tokens : List (List Char))
    (hsep : scanner_isspace separator = false)
    (htok : ∀ t ∈ tokens, IsPlain separator t) :
    split_string_into_list (List.intercalate [separator] tokens) separator =
      some tokens := by
  cases htokens : tokens with
  | nil => simp [List.intercalate, split_string_into_list, skip_whitespace]
  | cons t rest =>
    rw [← htokens]
    have hne : tokens ≠ [] := by rw [htokens]; simp
    have hjoin : padded_join separator (tokens.map fun t => ⟨[], t, []⟩) =
        List.intercalate [separator] tokens := by
      unfold padded_join
      congr 1
      rw [List.map_map]
      conv => rhs; rw [← List.map_id tokens]
      apply List.map_congr_left
      intro a _
      simp [Padded.text]
    have hitems : ∀ p ∈ tokens.map (fun t => (⟨[], t, []⟩ : Padded)),
        IsWhitespace p.before ∧ IsPlain separator p.tok ∧ IsWhitespace p.after := by
      intro p hp
      obtain ⟨a, ha, rfl⟩ := List.mem_map.mp hp
      exact ⟨fun c hc => (by cases hc), htok a ha, fun c hc => (by cases hc)⟩
    have hmap : (tokens.map (fun t => (⟨[], t, []⟩ : Padded))).map Padded.tok = tokens := by
      rw [List.map_map]
      conv => rhs; rw [← List.map_id tokens]
      apply List.map_congr_left
      intro a _
      rfl
    have hloop := split_loop_padded separator hsep
      (tokens.map fun t => ⟨[], t, []⟩) (by simpa using hne) hitems []
    rw [hjoin, hmap, List.nil_append] at hloop
    have hfirst : IsPlain separator t := htok t (by rw [htokens]; exact List.mem_cons_self _ _)
    obtain ⟨hne_t, hall⟩ := hfirst
    obtain ⟨c, hc⟩ := List.exists_mem_of_ne_nil t hne_t
    have hmem : c ∈ List.intercalate [separator] tokens := by
      rw [← hjoin, htokens, List.map_cons]
      exact text_subset_padded_join separator _ _ c (by simpa [Padded.text] using hc)
    rw [split_string_into_list_eq_loop _ _
      (skip_whitespace_ne_nil _ c hmem (hall c hc).2.2)]
    exact hloop

/-- Witness of C11: `a`, `bc`, `d` joined with `;` parse back to `a`, `bc`, `d`. -/
theorem C11_round_trip_plain_witness :
    split_string_into_list (List.intercalate [';'] ["a".toList, "bc".toList, "d".toList]) ';' =
      some ["a".toList, "bc".toList, "d".toList] :=
  C11_round_trip_plain ';' ["a".toList, "bc".toList, "d".toList] (by decide) (by decide)

/-- C11 as stated fails twice.  The single empty token holds no separator,
quote or whitespace character, yet joined with `,` it parses to the empty
sequence, not to itself.  The tokens `a`, `b` hold no separator, quote or
whitespace character, yet joined with the separator space the text `a b` is
rejected. -/
theorem C11_round_trip_counterexample :
    ((∀ t ∈ [([] : List Char)], ∀ c ∈ t,
        c ≠ ',' ∧ c ≠ '"' ∧ scanner_isspace c = false) ∧
      split_string_into_list (List.intercalate [','] [[]]) ',' = some [] ∧
      split_string_into_list (List.intercalate [','] [[]]) ',' ≠ some [[]]) ∧
    ((∀ t ∈ ["a".toList, "b".toList], ∀ c ∈ t,
        c ≠ ' ' ∧ c ≠ '"' ∧ scanner_isspace c = false) ∧
      split_string_into_list (List.intercalate [' '] ["a".toList, "b".toList]) ' ' =
        none) := by
  decide

/-- C12. Round trip of quoted tokens with separator `,`: for every sequence
of strings (they may be empty and may hold commas, whitespace and quotes),
each written as a quoted token with its quotes doubled, the quoted tokens
joined with `,` parse to exactly the strings, in order.  In particular
`"a""b"` parses to the one name `a"b`. -/
theorem C12_round_trip_quoted (strs : List (List Char)) :
    split_string_into_list (List.intercalate [','] (strs.map quoted)) ',' = some strs ∧
    split_string_into_list "\"a\"\"b\"".toList ',' = some ["a\"b".toList] := by
  refine ⟨?_, by decide⟩
  cases hs : strs with
  | nil => simp [List.intercalate, split_string_into_list, skip_whitespace]
  | cons s rest =>
    obtain ⟨r, hr⟩ := intercalate_quoted_head ',' s rest
    have hskip : skip_whitespace (List.intercalate [','] ((s :: rest).map quoted)) =
        List.intercalate [','] ((s :: rest).map quoted) := by
      rw [hr]
      exact skip_whitespace_quoted s r
    have hne : skip_whitespace (List.intercalate [','] ((s :: rest).map quoted)) ≠ [] := by
      rw [hskip, hr]
      simp [quoted]
    rw [split_string_into_list_eq_loop _ _ hne, hskip,
      split_loop_quoted ',' (by decide) (by decide) (s :: rest) (by simp) []]
    simp

/-- C13, as amended. An empty unquoted token is a syntax error: for every
separator that is neither a whitespace character nor the quote, and every
sequence of at least two strings, each empty or a plain token and at least one
of them empty, the strings joined with the separator, with any whitespace
before and after each of them, are rejected. -/
theorem C13_empty_token_rejected (separator : Char) (items : List Padded)
    (hsep : scanner_isspace separator = false) (hq : separator ≠ '"')
    (hlen : 2 ≤ items.length)
    (hitems : ∀ p ∈ items,
      IsWhitespace p.before ∧ (p.tok = [] ∨ IsPlain separator p.tok) ∧ IsWhitespace p.after)
    (hempty : ∃ p ∈ items, p.tok = []) :
    split_string_into_list (padded_join separator items) separator = none := by
  cases items with
  | nil => simp at hlen
  | cons p rest =>
    cases rest with
    | nil => simp at hlen
    | cons q rest2 =>
      rw [split_string_into_list_eq_loop _ _
        (skip_whitespace_ne_nil _ separator (separator_mem_padded_join separator p q rest2)
          hsep)]
      exact split_loop_empty_item separator hsep hq _ hitems hempty []

/-- Witness of C13: `a,,b`, `a, ,b`, `,a` and `a,` are rejected. -/
theorem C13_empty_token_rejected_witness :
    split_string_into_list "a,,b".toList ',' = none ∧
    split_string_into_list "a, ,b".toList ',' = none ∧
    split_string_into_list ",a".toList ',' = none ∧
    split_string_into_list "a,".toList ',' = none :=
  ⟨C13_empty_token_rejected ','
      [⟨[], "a".toList, []⟩, ⟨[], [], []⟩, ⟨[], "b".toList, []⟩]
      (by decide) (by decide) (by decide) (by decide) (by decide),
   C13_empty_token_rejected ','
      [⟨[], "a".toList, []⟩, ⟨[' '], [], []⟩, ⟨[], "b".toList, []⟩]
      (by decide) (by decide) (by decide) (by decide) (by decide),
   C13_empty_token_rejected ','
      [⟨[], [], []⟩, ⟨[], "a".toList, []⟩]
      (by decide) (by decide) (by decide) (by decide) (by decide),
   C13_empty_token_rejected ','
      [⟨[], "a".toList, []⟩, ⟨[], [], []⟩]
      (by decide) (by decide) (by decide) (by decide) (by decide)⟩

/-- C13 as stated, for any separator, fails when the separator is the quote
or a whitespace character.  With the quote as separator the strings empty,
`a`, empty join to `"a"`, which parses to the one name `a`.  With the space as
separator the strings `a`, empty join to `a `, which parses to the one name
`a`.  Both sequences have at least two strings, each empty or plain, one of
them empty. -/
theorem C13_empty_token_counterexample :
    ((∀ p ∈ [(⟨[], [], []⟩ : Padded), ⟨[], "a".toList, []⟩, ⟨[], [], []⟩],
        IsWhitespace p.before ∧ (p.tok = [] ∨ IsPlain '"' p.tok) ∧ IsWhitespace p.after) ∧
      padded_join '"' [⟨[], [], []⟩, ⟨[], "a".toList, []⟩, ⟨[], [], []⟩] = "\"a\"".toList ∧
      split_string_into_list "\"a\"".toList '"' = some ["a".toList]) ∧
    ((∀ p ∈ [(⟨[], "a".toList, []⟩ : Padded), ⟨[], [], []⟩],
        IsWhitespace p.before ∧ (p.tok = [] ∨ IsPlain ' ' p.tok) ∧ IsWhitespace p.after) ∧
      padded_join ' ' [⟨[], "a".toList, []⟩, ⟨[], [], []⟩] = "a ".toList ∧
      split_string_into_list "a ".toList ' ' = some ["a".toList]) := by
  decide

/-- C14, as amended. An unterminated quoted token is a syntax error: for
every separator other than the quote, a text made of whitespace, then any
number of well-formed tokens each followed by the separator, then a quote
followed by any text with no further quote, is rejected. -/
theorem C14_unterminated_quote_rejected (separator : Char) (w0 : List Char)
    (segs : List Segment) (t : List Char) (hq : separator ≠ '"')
    (hw0 : IsWhitespace w0) (hsegs : ∀ seg ∈ segs, seg.WellFormed separator)
    (ht : '"' ∉ t) :
    split_string_into_list (w0 ++ (segments_text separator segs ++ '"' :: t)) separator =
      none := by
  have hrest : skip_whitespace ('"' :: t) = '"' :: t :=
    skip_whitespace_cons _ _ scanner_isspace_quote
  have hskip : skip_whitespace (w0 ++ (segments_text separator segs ++ '"' :: t)) =
      segments_text separator segs ++ '"' :: t := by
    rw [skip_whitespace_append _ _ hw0]
    exact skip_whitespace_segments separator segs hsegs _ hrest
  have hne : skip_whitespace (w0 ++ (segments_text separator segs ++ '"' :: t)) ≠ [] := by
    rw [hskip]
    simp
  rw [split_string_into_list_eq_loop _ _ hne, hskip]
  refine split_loop_segments_none separator hq segs hsegs _ hrest (by simp) ?_ []
  intro namelist
  refine split_loop_none separator _ namelist ?_
  simp only [next_name]
  exact collapse_quotes_no_quote t ht

/-- Witness of C14: `"unterminated` is rejected, and so is `a, "b c` after the
well-formed token `a` and its separator. -/
theorem C14_unterminated_quote_rejected_witness :
    split_string_into_list "\"unterminated".toList ',' = none ∧
    split_string_into_list " a, \"b c".toList ',' = none :=
  ⟨C14_unterminated_quote_rejected ',' [] [] "unterminated".toList
      (by decide) (by decide) (by decide) (by decide),
   C14_unterminated_quote_rejected ',' [' '] [⟨.plain "a".toList, [], [' ']⟩] "b c".toList
      (by decide) (by decide) (by decide) (by decide)⟩

/-- C14 as stated, for any separator, fails when the separator is the quote:
the closed quoted token `"q"`, the separator `"`, then a quote followed by the
empty text make `"q"""`, which parses to the one name `q"`. -/
theorem C14_unterminated_quote_counterexample :
    (∀ seg ∈ [(⟨.closed "q".toList, [], []⟩ : Segment)], seg.WellFormed '"') ∧
    [] ++ (segments_text '"' [⟨.closed "q".toList, [], []⟩] ++ '"' :: []) =
      "\"q\"\"\"".toList ∧
    split_string_into_list "\"q\"\"\"".toList '"' = some ["q\"".toList] := by
  decide

/-- C15, as amended. Anything but a separator or the end of the text after a
token is a syntax error: for every separator other than the quote, a text made
of whitespace, any number of well-formed tokens each followed by the
separator, then a complete token, whitespace and a character that is neither
whitespace nor the separator, is rejected whatever follows.  The token is
complete: when no whitespace follows it, it is a closed quoted token and the
next character is not a quote. -/
theorem C15_junk_after_token_rejected (separator : Char) (w0 : List Char)
    (segs : List Segment) (tok : Written) (w : List Char) (c : Char) (rest : List Char)
    (hq : separator ≠ '"') (hw0 : IsWhitespace w0)
    (hsegs : ∀ seg ∈ segs, seg.WellFormed separator)
    (htok : tok.WellFormed separator) (hw : IsWhitespace w)
    (hc : scanner_isspace c = false) (hne : c ≠ separator)
    (hcomplete : w = [] → (∃ s, tok = Written.closed s) ∧ c ≠ '"') :
    split_string_into_list
        (w0 ++ (segments_text separator segs ++ (tok.text ++ (w ++ c :: rest))))
        separator = none := by
  have hrest : skip_whitespace (tok.text ++ (w ++ c :: rest)) = tok.text ++ (w ++ c :: rest) :=
    skip_whitespace_written separator tok _ htok
  have hrne : tok.text ++ (w ++ c :: rest) ≠ [] := by
    intro h
    exact written_text_ne_nil separator tok htok (List.append_eq_nil.mp h).1
  have hskip :
      skip_whitespace
          (w0 ++ (segments_text separator segs ++ (tok.text ++ (w ++ c :: rest)))) =
        segments_text separator segs ++ (tok.text ++ (w ++ c :: rest)) := by
    rw [skip_whitespace_append _ _ hw0]
    exact skip_whitespace_segments separator segs hsegs _ hrest
  have hne2 :
      skip_whitespace
          (w0 ++ (segments_text separator segs ++ (tok.text ++ (w ++ c :: rest)))) ≠ [] := by
    rw [hskip]
    intro h
    exact hrne (List.append_eq_nil.mp h).2
  rw [split_string_into_list_eq_loop _ _ hne2, hskip]
  refine split_loop_segments_none separator hq segs hsegs _ hrest hrne ?_ []
  intro namelist
  have hnext : next_name separator (tok.text ++ (w ++ c :: rest)) =
      some (tok.name, w ++ c :: rest) := by
    cases tok with
    | plain t =>
      refine next_name_plain separator t _ htok ?_
      cases w with
      | nil =>
        obtain ⟨⟨s, hs⟩, -⟩ := hcomplete rfl
        cases hs
      | cons d ds =>
        intro e es h
        simp only [List.cons_append, List.cons.injEq] at h
        exact Or.inr (h.1 ▸ hw d (List.mem_cons_self _ _))
    | closed s =>
      refine next_name_quoted separator s _ ?_
      cases w with
      | nil =>
        intro e es h
        simp only [List.nil_append, List.cons.injEq] at h
        exact h.1 ▸ (hcomplete rfl).2
      | cons d ds =>
        intro e es h he
        simp only [List.cons_append, List.cons.injEq] at h
        have hd := hw d (List.mem_cons_self _ _)
        rw [h.1, he, scanner_isspace_quote] at hd
        cases hd
  exact split_loop_junk separator c _ tok.name w rest namelist hnext hw hc hne

/-- Witness of C15: `a b` and `"a"b` are rejected. -/
theorem C15_junk_after_token_rejected_witness :
    split_string_into_list "a b".toList ',' = none ∧
    split_string_into_list "\"a\"b".toList ',' = none :=
  ⟨C15_junk_after_token_rejected ',' [] [] (.plain "a".toList) [' '] 'b' []
      (by decide) (by decide) (by decide) (by decide) (by decide) (by decide) (by decide)
      (fun h => by cases h),
   C15_junk_after_token_rejected ',' [] [] (.closed "a".toList) [] 'b' []
      (by decide) (by decide) (by decide) (by decide) (by decide) (by decide) (by decide)
      (fun _ => ⟨⟨_, rfl⟩, by decide⟩)⟩

/-- C15 as stated, for any separator, fails when the separator is the quote:
the closed quoted token `"q"` and the separator `"`, then the plain token `a`,
a space, the character `x` (neither the separator nor the end of the text) and
a last quote make `"q""a x"`, which parses to the one name `q"a x`. -/
theorem C15_junk_after_token_counterexample :
    (∀ seg ∈ [(⟨.closed "q".toList, [], []⟩ : Segment)], seg.WellFormed '"') ∧
    (Written.plain "a".toList).WellFormed '"' ∧
    scanner_isspace 'x' = false ∧ 'x' ≠ '"' ∧
    [] ++ (segments_text '"' [⟨.closed "q".toList, [], []⟩] ++
        ((Written.plain "a".toList).text ++ ([' '] ++ 'x' :: ['"']))) =
      "\"q\"\"a x\"".toList ∧
    split_string_into_list "\"q\"\"a x\"".toList '"' = some ["q\"a x".toList] := by
  decide

/-- C16. For every input string that is empty or holds only whitespace
characters, and every separator, `split_string_into_list` returns true with
the empty list. -/
theorem C16_blank_input_is_empty_list (rawstring : List Char) (separator : Char)
    (h : IsWhitespace rawstring) :
    split_string_into_list rawstring separator = some [] :=
  split_string_into_list_nil _ _ (skip_whitespace_of_whitespace _ h)

/-- Witness of C16: the empty string and a string of the five whitespace
characters both give the empty list, here with separator `;`. -/
theorem C16_blank_input_is_empty_list_witness :
    split_string_into_list [] ';' = some [] ∧
    split_string_into_list [' ', '\t', '\n', '\r', '\x0c'] ';' = some [] :=
  ⟨C16_blank_input_is_empty_list [] ';' (by decide),
   C16_blank_input_is_empty_list [' ', '\t', '\n', '\r', '\x0c'] ';' (by decide)⟩

/-- C17, as amended. Whitespace around tokens and separators is skipped and is
never part of a token: for every separator that is not a whitespace
character, every non-empty sequence of plain tokens and every choice of
whitespace before and after each token, the padded tokens joined with the
separator parse to the unpadded tokens, in order. -/
theorem C17_padding_skipped (separator : Char) (items : List Padded)
    (hsep : scanner_isspace separator = false) (hne : items ≠ [])
    (hitems : ∀ p ∈ items,
      IsWhitespace p.before ∧ IsPlain separator p.tok ∧ IsWhitespace p.after) :
    split_string_into_list (padded_join separator items) separator =
      some (items.map Padded.tok) := by
  cases hi : items with
  | nil => exact absurd hi hne
  | cons p rest =>
    rw [← hi]
    obtain ⟨-, ⟨hne_t, hall⟩, -⟩ := hitems p (by rw [hi]; exact List.mem_cons_self _ _)
    obtain ⟨c, hc⟩ := List.exists_mem_of_ne_nil p.tok hne_t
    have hmem : c ∈ padded_join separator items := by
      rw [hi]
      refine text_subset_padded_join separator p rest c ?_
      simp [Padded.text, hc]
    rw [split_string_into_list_eq_loop _ _
      (skip_whitespace_ne_nil _ c hmem (hall c hc).2.2)]
    have hloop := split_loop_padded separator hsep items hne hitems []
    rw [List.nil_append] at hloop
    exact hloop

/-- Witness of C17: `postgres, template1, template0` is the three names padded
with one space before the second and the third, and it parses to the three
names. -/
theorem C17_padding_skipped_witness :
    padded_join ','
        [⟨[], "postgres".toList, []⟩, ⟨[' '], "template1".toList, []⟩,
          ⟨[' '], "template0".toList, []⟩] =
      "postgres, template1, template0".toList ∧
    split_string_into_list
        (padded_join ','
          [⟨[], "postgres".toList, []⟩, ⟨[' '], "template1".toList, []⟩,
            ⟨[' '], "template0".toList, []⟩]) ',' =
      some ["postgres".toList, "template1".toList, "template0".toList] :=
  ⟨by decide,
   C17_padding_skipped ','
      [⟨[], "postgres".toList, []⟩, ⟨[' '], "template1".toList, []⟩,
        ⟨[' '], "template0".toList, []⟩]
      (by decide) (by decide) (by decide)⟩

/-- C17 as stated, for any separator, fails when the separator is a
whitespace character: with the tab as separator, the plain tokens `a` and `b`,
padded with a space before `a` and after `b`, join to a text that is
rejected. -/
theorem C17_padding_counterexample :
    (∀ p ∈ [(⟨[' '], "a".toList, []⟩ : Padded), ⟨[], "b".toList, [' ']⟩],
      IsWhitespace p.before ∧ IsPlain '\t' p.tok ∧ IsWhitespace p.after) ∧
    padded_join '\t' [⟨[' '], "a".toList, []⟩, ⟨[], "b".toList, [' ']⟩] =
      " a\tb ".toList ∧
    split_string_into_list " a\tb ".toList '\t' = none := by
  decide

/-- C19, as amended. For each string setting the check callback itself
replaces the list: run on a value that `split_string_into_list` accepts with
names `ltmp`, it returns true and leaves its list equal to `ltmp`; the assign
callback then changes nothing, for any value and any state. -/
theorem C19_check_replaces_assign_keeps (newval : String) (g : Globals)
    (ltmp : List (List Char))
    (h : split_string_into_list newval.toList ',' = some ltmp) :
    ((check_master_roles newval g).result = true ∧
      (check_master_roles newval g).globals.master_roles = ltmp.map pstrdup ∧
      (check_nonremovable_databases newval g).result = true ∧
      (check_nonremovable_databases newval g).globals.nonremovable_databases =
        ltmp.map pstrdup ∧
      (check_nonremovable_roles newval g).result = true ∧
      (check_nonremovable_roles newval g).globals.nonremovable_roles =
        ltmp.map pstrdup) ∧
    (∀ (v : String) (g2 : Globals),
      assign_master_roles v g2 = g2 ∧
      assign_nonremovable_databases v g2 = g2 ∧
      assign_nonremovable_roles v g2 = g2) := by
  constructor
  · simp only [check_master_roles, check_nonremovable_databases, check_nonremovable_roles, h,
      foreach_ltmp_eq, List.nil_append]
    simp
  · intro v g2
    exact ⟨rfl, rfl, rfl⟩

/-- Witness of C19: from the initial state, checking `alice, bob` as the new
value of each setting leaves that setting's list equal to `alice`, `bob`. -/
theorem C19_check_replaces_assign_keeps_witness :
    (check_master_roles "alice, bob" initial_globals).globals.master_roles =
      ["alice", "bob"] ∧
    (check_nonremovable_databases "alice, bob"
        initial_globals).globals.nonremovable_databases = ["alice", "bob"] ∧
    (check_nonremovable_roles "alice, bob" initial_globals).globals.nonremovable_roles =
      ["alice", "bob"] :=
  ⟨(C19_check_replaces_assign_keeps "alice, bob" initial_globals
      ["alice".toList, "bob".toList] (by decide)).1.2.1,
   (C19_check_replaces_assign_keeps "alice, bob" initial_globals
      ["alice".toList, "bob".toList] (by decide)).1.2.2.2.1,
   (C19_check_replaces_assign_keeps "alice, bob" initial_globals
      ["alice".toList, "bob".toList] (by decide)).1.2.2.2.2.2⟩

/-- C19 as stated fails: `alice` is a well-formed value, and running only
`check_master_roles` on it, from a state whose `master_roles` is `postgres`,
already leaves `master_roles` equal to `alice`; running `assign_master_roles`
on the same value from the same state leaves `master_roles` equal to
`postgres`. -/
theorem C19_check_then_assign_counterexample :
    split_string_into_list "alice".toList ',' = some ["alice".toList] ∧
    (check_master_roles "alice"
        { initial_globals with master_roles := ["postgres"] }).globals.master_roles =
      ["alice"] ∧
    (assign_master_roles "alice"
        { initial_globals with master_roles := ["postgres"] }).master_roles =
      ["postgres"] := by
  decide

/-- C20. The parser is total.  For every text and every separator, the run
of `split_string_into_list` that tells the bound on its passes apart from a
`return` never uses the bound up: it returns, and what it returns is the
result of `split_string_into_list`, success with a list of names or failure.
The same holds of the loop started at any position with any bound greater
than the length of the text there, so the loop leaves within that many
passes, on malformed text as well; and the result of
`split_string_into_list` is that of its loop for every such bound.  The
quoted-name loop, when it isolates a name, leaves a text strictly shorter
than the one it started on, and collapsing a doubled quote goes on with the
text after the pair.  Every pass of the outer loop that isolates a name moves
`nextp` strictly forward, and the next pass starts on a strictly shorter
text. -/
theorem C20_parser_total (rawstring : List Char) (separator : Char) :
    split_string_into_list_run rawstring separator =
      .returned (split_string_into_list rawstring separator) ∧
    (∀ (fuel : Nat) (nextp : List Char) (namelist : List (List Char)),
      nextp.length < fuel →
      split_loop_run separator fuel nextp namelist ≠ .fuel_used_up ∧
      split_loop_run separator fuel nextp namelist =
        .returned (split_loop separator fuel nextp namelist)) ∧
    (∀ fuel, (skip_whitespace rawstring).length < fuel →
      split_string_into_list rawstring separator =
        if skip_whitespace rawstring = [] then some []
        else split_loop separator fuel (skip_whitespace rawstring) []) ∧
    (∀ s name after : List Char,
      collapse_quotes s = some (name, after) → after.length < s.length) ∧
    (∀ cs : List Char,
      collapse_quotes ('"' :: '"' :: cs) =
        match collapse_quotes cs with
        | none => none
        | some (name, after) => some ('"' :: name, after)) ∧
    (∀ nextp name after : List Char,
      next_name separator nextp = some (name, after) → after.length < nextp.length) ∧
    (∀ (nextp name after : List Char) (c : Char) (cs : List Char),
      next_name separator nextp = some (name, after) →
      skip_whitespace after = c :: cs →
      (skip_whitespace cs).length < nextp.length) := by
  refine ⟨?_, ?_, ?_, collapse_quotes_length, ?_, next_name_length separator, ?_⟩
  · unfold split_string_into_list_run split_string_into_list
    cases hs : skip_whitespace rawstring with
    | nil => rfl
    | cons c cs =>
      exact split_loop_run_returns separator _ _ _ (Nat.lt_succ_self _)
  · intro fuel nextp namelist hfuel
    have h := split_loop_run_returns separator fuel nextp namelist hfuel
    refine ⟨?_, h⟩
    rw [h]
    intro e
    cases e
  · intro fuel hfuel
    by_cases h : skip_whitespace rawstring = []
    · rw [if_pos h]
      exact split_string_into_list_nil _ _ h
    · rw [if_neg h, split_string_into_list_eq_loop _ _ h]
      exact split_loop_fuel separator _ _ _ _ (Nat.lt_succ_self _) hfuel
  · intro cs
    simp [collapse_quotes]
  · intro nextp name after c cs hn hs
    have h1 := next_name_length separator _ _ _ hn
    have h2 := skip_whitespace_length after
    have h3 := skip_whitespace_length cs
    rw [hs] at h2
    simp only [List.length_cons] at h2
    omega

/-- Witness of C20: on ` a, "b""c" ` the run returns true with the two names,
on the malformed `a,,b` and `"open` it returns false, in each case without
using the bound up; a bound of one pass on `a,b` is used up, so the mark of
the bound is not vacuous. -/
theorem C20_parser_total_witness :
    split_string_into_list_run " a, \"b\"\"c\" ".toList ',' =
      .returned (some ["a".toList, "b\"c".toList]) ∧
    split_string_into_list_run "a,,b".toList ',' = .returned none ∧
    split_string_into_list_run "\"open".toList ',' = .returned none ∧
    split_loop_run ',' 1 "a,b".toList [] = .fuel_used_up :=
  ⟨(C20_parser_total " a, \"b\"\"c\" ".toList ',').1.trans (by decide),
   (C20_parser_total "a,,b".toList ',').1.trans (by decide),
   (C20_parser_total "\"open".toList ',').1.trans (by decide),
   by decide⟩

end PgRestrict
